import Mathlib

/-!
Verification of the PIE time-integration repository.

Shallow embedding of `sources/bdf.py` (implicit BDF steppers of orders 1-6)
and `sources/spatial/sd.py` (spectral-difference spatial operator) over the
rationals.  Machine floats of the source are modelled by `ℚ`; numpy arrays by
total functions `ℕ → ℚ` (scratch arrays are zero outside their allocated
range, matching `np.zeros`) or by `List`s where a length is part of the
statement; the external collaborators `rk_4` (bootstrap integrator) and
`scipy.optimize.root` (root-finding primitive) are abstract parameters, as
the spec treats them as black boxes.
-/

namespace PIE

/-- Single numpy element assignment `a[i] = v` on an array modelled as a
function of the index. -/
def npSet {α : Type} (a : ℕ → α) (i : ℕ) (v : α) : ℕ → α :=
  fun j => if j = i then v else a j

/-- Resolution of an in-range Python index on an array of length `N`: for an
index in `[-N, N)` a negative value wraps around, which is exactly
`i mod N`.  Out-of-range indices are rejected before this is applied, by
`pyIdx?`. -/
def pyIdx (N : ℕ) (i : ℤ) : ℕ :=
  (i % (N : ℤ)).toNat

/-- Python index resolution with the bounds check numpy performs on every
subscript: an index outside `[-N, N)` raises an `IndexError`, modelled as
`none`; an in-range index resolves with negative-index wraparound. -/
def pyIdx? (N : ℕ) (i : ℤ) : Option ℕ :=
  if -(N : ℤ) ≤ i ∧ i < (N : ℤ) then some (pyIdx N i) else none

/-- Result record of the external root-finding primitive
(`scipy.optimize.root`): best-effort root `x`, convergence flag `success`
and diagnostic `message`. -/
structure RootResult (σ : Type) where
  x : σ
  success : Bool
  message : String

/-- Value returned by a user-supplied Jacobian callback `jac(u, t)`: either a
bare scalar (numpy shape `()`) or a matrix of rationals (shape
`(rows, cols)`). -/
inductive NpVal where
  | scal : ℚ → NpVal
  | mat : List (List ℚ) → NpVal

/-- Shape of an `NpVal`, as numpy's `.shape` tuple. -/
def NpVal.shape : NpVal → List ℕ
  | .scal _ => []
  | .mat rows => [rows.length, (rows.headD []).length]

/-- The rectangular identity matrix `np.eye(n, mcols)`. -/
def npEye (n mcols : ℕ) : List (List ℚ) :=
  (List.range n).map fun r => (List.range mcols).map fun c => if r = c then 1 else 0

/-- Splatting a shape tuple into `np.eye` (the source's `np.eye(*foo.shape)`):
called with no argument numpy raises a `TypeError`, modelled as `none`; with
one or two size arguments it builds the identity.  Shapes produced by
`NpVal.shape` have zero or two entries. -/
def npEyeStar : List ℕ → Option (List (List ℚ))
  | [] => none
  | [n] => some (npEye n n)
  | [n, mcols] => some (npEye n mcols)
  | _ => none

/-- Elementwise scalar multiple of a matrix. -/
def matSMul (a : ℚ) (rows : List (List ℚ)) : List (List ℚ) :=
  rows.map fun row => row.map fun x => a * x

/-- Elementwise difference of two matrices. -/
def matSub (A B : List (List ℚ)) : List (List ℚ) :=
  List.zipWith (fun ra rb => List.zipWith (fun x y => x - y) ra rb) A B

/-- Jacobian closure built by `bdf_1` when a user Jacobian is supplied
(`bdf.py` lines 44-46): `np.eye(*foo.shape) - (t1 - t0) * foo` with
`foo = jac(u, t1)`.  `none` models the `TypeError` numpy raises when `foo` is
a bare scalar, since `np.eye` is then called without a size argument.  The
extra `*args` the root-finder passes are ignored, as in the source. -/
def bdf1_jacobian (jac : NpVal → ℚ → NpVal) (u : NpVal) (t0 t1 : ℚ) :
    Option (List (List ℚ)) :=
  match jac u t1 with
  | .scal _ => none
  | .mat foo => (npEyeStar (NpVal.shape (.mat foo))).map
      fun I => matSub I (matSMul (t1 - t0) foo)

/-- Jacobian closure built by `bdf_2` (`bdf.py` lines 71-73):
`np.eye(*foo.shape) - 2 * (t2 - t1) * foo / 3`. -/
def bdf2_jacobian (jac : NpVal → ℚ → NpVal) (u : NpVal) (t1 t2 : ℚ) :
    Option (List (List ℚ)) :=
  match jac u t2 with
  | .scal _ => none
  | .mat foo => (npEyeStar (NpVal.shape (.mat foo))).map
      fun I => matSub I (matSMul (2 * (t2 - t1) / 3) foo)

/-- Jacobian closure built by `bdf_3` (`bdf.py` lines 98-100):
`np.eye(*foo.shape) - 6 * (t3 - t2) * foo / 11`. -/
def bdf3_jacobian (jac : NpVal → ℚ → NpVal) (u : NpVal) (t2 t3 : ℚ) :
    Option (List (List ℚ)) :=
  match jac u t3 with
  | .scal _ => none
  | .mat foo => (npEyeStar (NpVal.shape (.mat foo))).map
      fun I => matSub I (matSMul (6 * (t3 - t2) / 11) foo)

/-- Jacobian closure built by `bdf_4` (`bdf.py` lines 125-127):
`np.eye(*foo.shape) - 12 * (t4 - t3) * foo / 25`. -/
def bdf4_jacobian (jac : NpVal → ℚ → NpVal) (u : NpVal) (t3 t4 : ℚ) :
    Option (List (List ℚ)) :=
  match jac u t4 with
  | .scal _ => none
  | .mat foo => (npEyeStar (NpVal.shape (.mat foo))).map
      fun I => matSub I (matSMul (12 * (t4 - t3) / 25) foo)

/-- Jacobian closure built by `bdf_5` (`bdf.py` lines 153-155):
`np.eye(*foo.shape) - 60 * (t5 - t4) * foo / 137`. -/
def bdf5_jacobian (jac : NpVal → ℚ → NpVal) (u : NpVal) (t4 t5 : ℚ) :
    Option (List (List ℚ)) :=
  match jac u t5 with
  | .scal _ => none
  | .mat foo => (npEyeStar (NpVal.shape (.mat foo))).map
      fun I => matSub I (matSMul (60 * (t5 - t4) / 137) foo)

/-- Jacobian closure built by `bdf_6` (`bdf.py` lines 181-183):
`np.eye(*foo.shape) - 60 * (t6 - t5) * foo / 147`. -/
def bdf6_jacobian (jac : NpVal → ℚ → NpVal) (u : NpVal) (t5 t6 : ℚ) :
    Option (List (List ℚ)) :=
  match jac u t6 with
  | .scal _ => none
  | .mat foo => (npEyeStar (NpVal.shape (.mat foo))).map
      fun I => matSub I (matSMul (60 * (t6 - t5) / 147) foo)

/-- Residual closure of `bdf_1` (`bdf.py` line 38-39):
`u - u0 - (t1 - t0) * f(u, t1)`.  States live in an arbitrary `ℚ`-module so
that the scalar and the vector instantiations are both covered; division of a
state by a rational literal is scalar multiplication by its inverse. -/
def bdf1_func_to_minimise {V : Type} [AddCommGroup V] [Module ℚ V]
    (f : V → ℚ → V) (u : V) (t0 t1 : ℚ) (u0 : V) : V :=
  u - u0 - (t1 - t0) • f u t1

/-- Residual closure of `bdf_2` (`bdf.py` lines 65-66):
`u - 4*u1/3 + u0/3 - 2*(t2 - t1)*f(u, t2)/3`. -/
def bdf2_func_to_minimise {V : Type} [AddCommGroup V] [Module ℚ V]
    (f : V → ℚ → V) (u : V) (t1 t2 : ℚ) (u0 u1 : V) : V :=
  u - (4 / 3 : ℚ) • u1 + (1 / 3 : ℚ) • u0 - (2 * (t2 - t1) / 3) • f u t2

/-- Residual closure of `bdf_3` (`bdf.py` lines 92-93):
`u - 18*u2/11 + 9*u1/11 - 2*u0/11 - 6*(t3 - t2)*f(u, t3)/11`. -/
def bdf3_func_to_minimise {V : Type} [AddCommGroup V] [Module ℚ V]
    (f : V → ℚ → V) (u : V) (t2 t3 : ℚ) (u0 u1 u2 : V) : V :=
  u - (18 / 11 : ℚ) • u2 + (9 / 11 : ℚ) • u1 - (2 / 11 : ℚ) • u0
    - (6 * (t3 - t2) / 11) • f u t3

/-- Residual closure of `bdf_4` (`bdf.py` lines 119-120):
`u - 48*u3/25 + 36*u2/25 - 16*u1/25 + 3*u0/25 - 12*(t4 - t3)*f(u, t4)/25`. -/
def bdf4_func_to_minimise {V : Type} [AddCommGroup V] [Module ℚ V]
    (f : V → ℚ → V) (u : V) (t3 t4 : ℚ) (u0 u1 u2 u3 : V) : V :=
  u - (48 / 25 : ℚ) • u3 + (36 / 25 : ℚ) • u2 - (16 / 25 : ℚ) • u1
    + (3 / 25 : ℚ) • u0 - (12 * (t4 - t3) / 25) • f u t4

/-- Residual closure of `bdf_5` (`bdf.py` lines 146-148):
`u - 300*u4/137 + 300*u3/137 - 200*u2/137 + 75*u1/137 - 12*u0/137
 - 60*(t5 - t4)*f(u, t5)/137`. -/
def bdf5_func_to_minimise {V : Type} [AddCommGroup V] [Module ℚ V]
    (f : V → ℚ → V) (u : V) (t4 t5 : ℚ) (u0 u1 u2 u3 u4 : V) : V :=
  u - (300 / 137 : ℚ) • u4 + (300 / 137 : ℚ) • u3 - (200 / 137 : ℚ) • u2
    + (75 / 137 : ℚ) • u1 - (12 / 137 : ℚ) • u0 - (60 * (t5 - t4) / 137) • f u t5

/-- Residual closure of `bdf_6` (`bdf.py` lines 174-176):
`u - 360*u5/147 + 450*u4/147 - 400*u3/147 + 225*u2/147 - 72*u1/147
 + 10*u0/147 - 60*(t6 - t5)*f(u, t6)/147`. -/
def bdf6_func_to_minimise {V : Type} [AddCommGroup V] [Module ℚ V]
    (f : V → ℚ → V) (u : V) (t5 t6 : ℚ) (u0 u1 u2 u3 u4 u5 : V) : V :=
  u - (360 / 147 : ℚ) • u5 + (450 / 147 : ℚ) • u4 - (400 / 147 : ℚ) • u3
    + (225 / 147 : ℚ) • u2 - (72 / 147 : ℚ) • u1 + (10 / 147 : ℚ) • u0
    - (60 * (t6 - t5) / 147) • f u t6

/-- Adapter of `bdf_1`'s residual closure to the window-list calling
convention of the stepping loop (Python's `*args` unpacking; a window of any
other length would raise a `TypeError` there, and the loop only ever builds
windows of length 1). -/
def bdf1_F {V : Type} [AddCommGroup V] [Module ℚ V] (f : V → ℚ → V) :
    V → ℚ → ℚ → List V → V :=
  fun u t0 t1 w => match w with
  | [u0] => bdf1_func_to_minimise f u t0 t1 u0
  | _ => u

/-- Adapter of `bdf_2`'s residual closure to the window-list convention. -/
def bdf2_F {V : Type} [AddCommGroup V] [Module ℚ V] (f : V → ℚ → V) :
    V → ℚ → ℚ → List V → V :=
  fun u t1 t2 w => match w with
  | [u0, u1] => bdf2_func_to_minimise f u t1 t2 u0 u1
  | _ => u

/-- Adapter of `bdf_3`'s residual closure to the window-list convention. -/
def bdf3_F {V : Type} [AddCommGroup V] [Module ℚ V] (f : V → ℚ → V) :
    V → ℚ → ℚ → List V → V :=
  fun u t2 t3 w => match w with
  | [u0, u1, u2] => bdf3_func_to_minimise f u t2 t3 u0 u1 u2
  | _ => u

/-- Adapter of `bdf_4`'s residual closure to the window-list convention. -/
def bdf4_F {V : Type} [AddCommGroup V] [Module ℚ V] (f : V → ℚ → V) :
    V → ℚ → ℚ → List V → V :=
  fun u t3 t4 w => match w with
  | [u0, u1, u2, u3] => bdf4_func_to_minimise f u t3 t4 u0 u1 u2 u3
  | _ => u

/-- Adapter of `bdf_5`'s residual closure to the window-list convention. -/
def bdf5_F {V : Type} [AddCommGroup V] [Module ℚ V] (f : V → ℚ → V) :
    V → ℚ → ℚ → List V → V :=
  fun u t4 t5 w => match w with
  | [u0, u1, u2, u3, u4] => bdf5_func_to_minimise f u t4 t5 u0 u1 u2 u3 u4
  | _ => u

/-- Adapter of `bdf_6`'s residual closure to the window-list convention. -/
def bdf6_F {V : Type} [AddCommGroup V] [Module ℚ V] (f : V → ℚ → V) :
    V → ℚ → ℚ → List V → V :=
  fun u t5 t6 w => match w with
  | [u0, u1, u2, u3, u4, u5] => bdf6_func_to_minimise f u t5 t6 u0 u1 u2 u3 u4 u5
  | _ => u

/-- The window `y[k:k+i]` of previous states read at step `j` of the loop in
`_bdf_i` (the source's loop variable `k` is called `j` here). -/
def window {σ : Type} (y : ℕ → σ) (j i : ℕ) : List σ :=
  (List.range i).map fun m => y (j + m)

/-- The residual closure handed to the root-finder at step `j` of `_bdf_i`:
the per-order residual `F` with the bound extra arguments
`(t[j+i-1], t[j+i], *y[j:j+i])` of `bdf.py` line 17. -/
def residualAt {σ : Type} (F : σ → ℚ → ℚ → List σ → σ) (t : List ℚ) (i : ℕ)
    (y : ℕ → σ) (j : ℕ) : σ → σ :=
  fun u => F u (t.getD (j + i - 1) 0) (t.getD (j + i) 0) (window y j i)

/-- One iteration of the stepping loop of `_bdf_i` (`bdf.py` lines 15-20):
solve the residual from the guess `y[j+i-1]`, record a warning when the
solver reports failure, and store the best-effort root in `y[j+i]`. -/
def bdfStep {σ J : Type} (root : (σ → σ) → σ → J → RootResult σ) (jacobian : J)
    (F : σ → ℚ → ℚ → List σ → σ) (t : List ℚ) (i : ℕ)
    (st : (ℕ → σ) × List String) (j : ℕ) : (ℕ → σ) × List String :=
  let r := root (residualAt F t i st.1 j) (st.1 (j + i - 1)) jacobian
  (npSet st.1 (j + i) r.x, st.2 ++ if r.success then [] else [r.message])

/-- The trajectory array right after the bootstrap assignment
`y[:i] = rk_4(y0, t[:i], f)` (`bdf.py` line 14); `z` is the zero state the
array was allocated with (`np.zeros`), left in place beyond the bootstrapped
prefix. -/
def bdfInit {σ : Type} (z : σ) (rk_4 : σ → List ℚ → (σ → ℚ → σ) → List σ)
    (i : ℕ) (y0 : σ) (t : List ℚ) (f : σ → ℚ → σ) : ℕ → σ :=
  fun m => if m < i then (rk_4 y0 (t.take i) f).getD m z else z

/-- The final loop state of `_bdf_i`: the trajectory array together with the
list of warnings emitted for non-converged steps, after folding the stepping
loop `for k in range(n - i)` over the bootstrapped array. -/
def bdfState {σ J : Type} (z : σ) (rk_4 : σ → List ℚ → (σ → ℚ → σ) → List σ)
    (root : (σ → σ) → σ → J → RootResult σ) (i : ℕ) (y0 : σ) (t : List ℚ)
    (f : σ → ℚ → σ) (F : σ → ℚ → ℚ → List σ → σ) (jacobian : J) :
    (ℕ → σ) × List String :=
  (List.range (t.length - i)).foldl (bdfStep root jacobian F t i)
    (bdfInit z rk_4 i y0 t f, [])

/-- Shallow embedding of `_bdf_i` (`bdf.py` lines 7-21).  The scalar/vector
dispatch of the `try/except` is reflected in the choice of the state type
`σ` and its zero `z`; the external bootstrap `rk_4` and root-finder `root`
are parameters; the warnings emitted by `warnings.warn` are returned
alongside the length-`n` trajectory. -/
def _bdf_i {σ J : Type} (z : σ) (rk_4 : σ → List ℚ → (σ → ℚ → σ) → List σ)
    (root : (σ → σ) → σ → J → RootResult σ) (i : ℕ) (y0 : σ) (t : List ℚ)
    (f : σ → ℚ → σ) (F : σ → ℚ → ℚ → List σ → σ) (jacobian : J) :
    List σ × List String :=
  ((List.range t.length).map (bdfState z rk_4 root i y0 t f F jacobian).1,
    (bdfState z rk_4 root i y0 t f F jacobian).2)

/-- `bdf_1` (`bdf.py` lines 24-48): order-1 BDF, delegating to `_bdf_i` with
the order-1 residual and, when a user Jacobian is supplied, the adapted
residual Jacobian. -/
def bdf_1 {σ : Type} [AddCommGroup σ] [Module ℚ σ] (z : σ)
    (rk_4 : σ → List ℚ → (σ → ℚ → σ) → List σ)
    (root : (σ → σ) → σ → Option (NpVal → ℚ → ℚ → Option (List (List ℚ))) →
      RootResult σ)
    (y0 : σ) (t : List ℚ) (f : σ → ℚ → σ) (jac : Option (NpVal → ℚ → NpVal)) :
    List σ × List String :=
  _bdf_i z rk_4 root 1 y0 t f (bdf1_F f) (jac.map bdf1_jacobian)

/-- `bdf_2` (`bdf.py` lines 51-75). -/
def bdf_2 {σ : Type} [AddCommGroup σ] [Module ℚ σ] (z : σ)
    (rk_4 : σ → List ℚ → (σ → ℚ → σ) → List σ)
    (root : (σ → σ) → σ → Option (NpVal → ℚ → ℚ → Option (List (List ℚ))) →
      RootResult σ)
    (y0 : σ) (t : List ℚ) (f : σ → ℚ → σ) (jac : Option (NpVal → ℚ → NpVal)) :
    List σ × List String :=
  _bdf_i z rk_4 root 2 y0 t f (bdf2_F f) (jac.map bdf2_jacobian)

/-- `bdf_3` (`bdf.py` lines 78-102). -/
def bdf_3 {σ : Type} [AddCommGroup σ] [Module ℚ σ] (z : σ)
    (rk_4 : σ → List ℚ → (σ → ℚ → σ) → List σ)
    (root : (σ → σ) → σ → Option (NpVal → ℚ → ℚ → Option (List (List ℚ))) →
      RootResult σ)
    (y0 : σ) (t : List ℚ) (f : σ → ℚ → σ) (jac : Option (NpVal → ℚ → NpVal)) :
    List σ × List String :=
  _bdf_i z rk_4 root 3 y0 t f (bdf3_F f) (jac.map bdf3_jacobian)

/-- `bdf_4` (`bdf.py` lines 105-129). -/
def bdf_4 {σ : Type} [AddCommGroup σ] [Module ℚ σ] (z : σ)
    (rk_4 : σ → List ℚ → (σ → ℚ → σ) → List σ)
    (root : (σ → σ) → σ → Option (NpVal → ℚ → ℚ → Option (List (List ℚ))) →
      RootResult σ)
    (y0 : σ) (t : List ℚ) (f : σ → ℚ → σ) (jac : Option (NpVal → ℚ → NpVal)) :
    List σ × List String :=
  _bdf_i z rk_4 root 4 y0 t f (bdf4_F f) (jac.map bdf4_jacobian)

/-- `bdf_5` (`bdf.py` lines 132-157). -/
def bdf_5 {σ : Type} [AddCommGroup σ] [Module ℚ σ] (z : σ)
    (rk_4 : σ → List ℚ → (σ → ℚ → σ) → List σ)
    (root : (σ → σ) → σ → Option (NpVal → ℚ → ℚ → Option (List (List ℚ))) →
      RootResult σ)
    (y0 : σ) (t : List ℚ) (f : σ → ℚ → σ) (jac : Option (NpVal → ℚ → NpVal)) :
    List σ × List String :=
  _bdf_i z rk_4 root 5 y0 t f (bdf5_F f) (jac.map bdf5_jacobian)

/-- `bdf_6` (`bdf.py` lines 160-185). -/
def bdf_6 {σ : Type} [AddCommGroup σ] [Module ℚ σ] (z : σ)
    (rk_4 : σ → List ℚ → (σ → ℚ → σ) → List σ)
    (root : (σ → σ) → σ → Option (NpVal → ℚ → ℚ → Option (List (List ℚ))) →
      RootResult σ)
    (y0 : σ) (t : List ℚ) (f : σ → ℚ → σ) (jac : Option (NpVal → ℚ → NpVal)) :
    List σ × List String :=
  _bdf_i z rk_4 root 6 y0 t f (bdf6_F f) (jac.map bdf6_jacobian)

/-- The standard BDF-k coefficient table of the spec (order 1 to 6): the `k`
rational coefficients `c_m` multiplying the previous states `y[i+m]`
(`m = 0` oldest) and the coefficient `β` of the step-weighted derivative
term.  This definition follows the spec's words, to be compared with the
residual closures of the source. -/
def bdfCoeffsSpec : ℕ → List ℚ × ℚ
  | 1 => ([1], 1)
  | 2 => ([-1/3, 4/3], 2/3)
  | 3 => ([2/11, -9/11, 18/11], 6/11)
  | 4 => ([-3/25, 16/25, -36/25, 48/25], 12/25)
  | 5 => ([12/137, -75/137, 200/137, -300/137, 300/137], 60/137)
  | 6 => ([-10/147, 72/147, -225/147, 400/147, -450/147, 360/147], 60/147)
  | _ => ([], 0)

/-- The spec's order-k residual
`R(u) = u - Σ c_m * y[j+m] - β*h*f(u, t[j+k])` with
`h = t[j+k] - t[j+k-1]`, the spacing between the latest two points of the
window starting at `j`. -/
def bdfSpecResidual {V : Type} [AddCommGroup V] [Module ℚ V] (k : ℕ)
    (y : ℕ → V) (j : ℕ) (t : List ℚ) (f : V → ℚ → V) (u : V) : V :=
  u - (∑ m ∈ Finset.range k, ((bdfCoeffsSpec k).1.getD m 0) • y (j + m))
    - ((bdfCoeffsSpec k).2 * (t.getD (j + k) 0 - t.getD (j + k - 1) 0)) •
        f u (t.getD (j + k) 0)

/-- Spectral-difference spatial operator (`sd.py`).  Modelled from the spec:
the base class `SpatialMethod` (file `spatial/method.py`, absent from the
sources) supplies the number of cells `n_cell` (the mesh has `n_cell + 1`
boundaries), the polynomial order `p`, the transport coefficient `c` and the
mesh; the three transfer matrices built once in `__init__` from Lagrange
bases (solution-to-flux, flux-to-solution, flux-point differentiation) are
carried here as abstract entries, since `rhs` only reads them. -/
structure SpectralDifferenceMethod where
  n_cell : ℕ
  p : ℕ
  c : ℚ
  mesh : ℕ → ℚ
  sol_to_flux : ℕ → ℕ → ℚ
  flux_to_sol : ℕ → ℕ → ℚ
  d_in_flux : ℕ → ℕ → ℚ

/-- The local arrays of `SpectralDifferenceMethod.rhs` (`sd.py` lines 32-39)
together with the input array `y`, threaded through the statements of the
body so that every numpy assignment of the source is a field update. -/
structure RhsState where
  y : ℕ → ℚ
  sol_in_sol_point : ℕ → ℚ
  sol_in_flux_point : ℕ → ℚ
  flux_in_flux_point : ℕ → ℚ
  rhs_in_flux_point : ℕ → ℚ
  rhs_in_sol_point : ℕ → ℚ

/-- Loop `sd.py` lines 41-44: per cell `i`,
`sol_in_sol_point[i*p:(i+1)*p] = y[i*p:(i+1)*p] * 2 / (mesh[i+1] - mesh[i])`;
the slices cover exactly the indices below `n_cell * p`, and the cell of an
index `idx` is `idx / p`. -/
def sdStage1 (m : SpectralDifferenceMethod) (st : RhsState) : RhsState :=
  { st with sol_in_sol_point := fun idx =>
      if idx < m.n_cell * m.p then
        st.y idx * 2 / (m.mesh (idx / m.p + 1) - m.mesh (idx / m.p))
      else st.sol_in_sol_point idx }

/-- Loop `sd.py` lines 46-50: per cell `i`,
`sol_in_flux_point[i*(p+1):(i+1)*(p+1)] = sol_to_flux . sol_in_sol_point[i*p:(i+1)*p]`;
entry `j` of the local product is the dot product of row `j` of
`sol_to_flux` with the cell's solution values. -/
def sdStage2 (m : SpectralDifferenceMethod) (st : RhsState) : RhsState :=
  { st with sol_in_flux_point := fun idx =>
      if idx < m.n_cell * (m.p + 1) then
        ∑ k ∈ Finset.range m.p,
          m.sol_to_flux (idx % (m.p + 1)) k *
            st.sol_in_sol_point ((idx / (m.p + 1)) * m.p + k)
      else st.sol_in_flux_point idx }

/-- Loop `sd.py` lines 52-55: per cell,
`flux_in_flux_point[a:b] = -c * sol_in_flux_point[a:b]`. -/
def sdStage3 (m : SpectralDifferenceMethod) (st : RhsState) : RhsState :=
  { st with flux_in_flux_point := fun idx =>
      if idx < m.n_cell * (m.p + 1) then -m.c * st.sol_in_flux_point idx
      else st.flux_in_flux_point idx }

/-- One iteration of the flux-continuity loop (`sd.py` lines 58-62): for
positive `c`, `flux[i*(p+1)] = flux[i*(p+1) - 1]`; otherwise
`flux[(i-1)*(p+1) - 1] = flux[(i-1)*(p+1)]`.  The read is evaluated first,
and every subscript goes through the bounds check of `pyIdx?`: an index
outside `[-N, N)` — the write target `-(p+2)` of the second branch when
`n_cell = 1` — raises an `IndexError`, modelled as `Except.error` carrying
the array as it stands at the raise; an already-raised state propagates
unchanged, since the loop stops there. -/
def sdContinuityStep (m : SpectralDifferenceMethod)
    (a : Except (ℕ → ℚ) (ℕ → ℚ)) (i : ℕ) : Except (ℕ → ℚ) (ℕ → ℚ) :=
  match a with
  | .error arr => .error arr
  | .ok arr =>
      if 0 < m.c then
        match pyIdx? (m.n_cell * (m.p + 1)) ((i : ℤ) * (m.p + 1) - 1),
            pyIdx? (m.n_cell * (m.p + 1)) ((i : ℤ) * (m.p + 1)) with
        | some src, some tgt => .ok (npSet arr tgt (arr src))
        | _, _ => .error arr
      else
        match pyIdx? (m.n_cell * (m.p + 1)) (((i : ℤ) - 1) * (m.p + 1)),
            pyIdx? (m.n_cell * (m.p + 1)) (((i : ℤ) - 1) * (m.p + 1) - 1) with
        | some src, some tgt => .ok (npSet arr tgt (arr src))
        | _, _ => .error arr

/-- Total description of the writes of one continuity-loop iteration when
every index is in range; used to state the loop's effect in the theorems
below (`sdContinuityStep` agrees with it exactly when no bounds check
fails). -/
def sdContinuityWrap (m : SpectralDifferenceMethod) (a : ℕ → ℚ) (i : ℕ) :
    ℕ → ℚ :=
  if 0 < m.c then
    npSet a (i * (m.p + 1))
      (a (pyIdx (m.n_cell * (m.p + 1)) ((i : ℤ) * (m.p + 1) - 1)))
  else
    npSet a (pyIdx (m.n_cell * (m.p + 1)) (((i : ℤ) - 1) * (m.p + 1) - 1))
      (a (pyIdx (m.n_cell * (m.p + 1)) (((i : ℤ) - 1) * (m.p + 1))))

/-- The state produced by a completed continuity loop: the flux array
replaced by the fold of `sdContinuityWrap`; `sdStage4` returns exactly this
(wrapped in `Except.ok`) whenever no bounds check fails. -/
def sdStage4Wrap (m : SpectralDifferenceMethod) (st : RhsState) : RhsState :=
  { st with flux_in_flux_point :=
      (List.range m.n_cell).foldl (sdContinuityWrap m) st.flux_in_flux_point }

/-- The flux-continuity loop `for i in range(n_cell)` (`sd.py` lines 57-62),
a sequential fold since each iteration reads the current array; an
`IndexError` aborts the loop, leaving the other arrays as they were. -/
def sdStage4 (m : SpectralDifferenceMethod) (st : RhsState) :
    Except RhsState RhsState :=
  match (List.range m.n_cell).foldl (sdContinuityStep m)
      (.ok st.flux_in_flux_point) with
  | .ok flux => .ok { st with flux_in_flux_point := flux }
  | .error flux => .error { st with flux_in_flux_point := flux }

/-- Loop `sd.py` lines 64-67: per cell,
`rhs_in_flux_point[a:b] = d_in_flux . flux_in_flux_point[a:b]`. -/
def sdStage5 (m : SpectralDifferenceMethod) (st : RhsState) : RhsState :=
  { st with rhs_in_flux_point := fun idx =>
      if idx < m.n_cell * (m.p + 1) then
        ∑ k ∈ Finset.range (m.p + 1),
          m.d_in_flux (idx % (m.p + 1)) k *
            st.flux_in_flux_point ((idx / (m.p + 1)) * (m.p + 1) + k)
      else st.rhs_in_flux_point idx }

/-- Loop `sd.py` lines 69-73: per cell,
`rhs_in_sol_point[i*p:(i+1)*p] = flux_to_sol . rhs_in_flux_point[i*(p+1):(i+1)*(p+1)]`. -/
def sdStage6 (m : SpectralDifferenceMethod) (st : RhsState) : RhsState :=
  { st with rhs_in_sol_point := fun idx =>
      if idx < m.n_cell * m.p then
        ∑ k ∈ Finset.range (m.p + 1),
          m.flux_to_sol (idx % m.p) k *
            st.rhs_in_flux_point ((idx / m.p) * (m.p + 1) + k)
      else st.rhs_in_sol_point idx }

/-- Run of the body of `SpectralDifferenceMethod.rhs` (`sd.py` lines 32-75):
scratch arrays allocated as zeros, then the six loops of the body in order.
The flux-continuity loop can raise `IndexError`; the error outcome carries
the arrays as they stand at the raise, after which no further statement of
the body runs.  The time argument `t` is received and never read, as in the
source. -/
def SpectralDifferenceMethod.rhsRun (m : SpectralDifferenceMethod)
    (y : ℕ → ℚ) (t : ℚ) : Except RhsState RhsState :=
  match sdStage4 m (sdStage3 m (sdStage2 m (sdStage1 m
      { y := y
        sol_in_sol_point := fun _ => 0
        sol_in_flux_point := fun _ => 0
        flux_in_flux_point := fun _ => 0
        rhs_in_flux_point := fun _ => 0
        rhs_in_sol_point := fun _ => 0 }))) with
  | .ok st4 => .ok (sdStage6 m (sdStage5 m st4))
  | .error st4 => .error st4

/-- The state of all arrays when the call ends, normally or by raising. -/
def SpectralDifferenceMethod.rhsState (m : SpectralDifferenceMethod)
    (y : ℕ → ℚ) (t : ℚ) : RhsState :=
  match m.rhsRun y t with
  | .ok st => st
  | .error st => st

/-- `SpectralDifferenceMethod.rhs`: the returned array `rhs_in_sol_point` on
a normal return, `none` when the body raises `IndexError`. -/
def SpectralDifferenceMethod.rhs (m : SpectralDifferenceMethod)
    (y : ℕ → ℚ) (t : ℚ) : Option (ℕ → ℚ) :=
  match m.rhsRun y t with
  | .ok st => some st.rhs_in_sol_point
  | .error _ => none

/-- The loop state of `_bdf_i` after the first `M` iterations of the stepping
loop, used to reason about the fold one step at a time. -/
def bdfPartial {σ J : Type} (root : (σ → σ) → σ → J → RootResult σ)
    (jacobian : J) (F : σ → ℚ → ℚ → List σ → σ) (t : List ℚ) (i : ℕ)
    (init : (ℕ → σ) × List String) (M : ℕ) : (ℕ → σ) × List String :=
  (List.range M).foldl (bdfStep root jacobian F t i) init

/-- Concrete spectral-difference instance (two cells, order 1, positive
transport) used to instantiate hypotheses of the theorems below. -/
def sdExample : SpectralDifferenceMethod :=
  ⟨2, 1, 1, fun _ => 0, fun _ _ => 0, fun _ _ => 0, fun _ _ => 0⟩

/-- Concrete spectral-difference instance with zero transport coefficient. -/
def sdExampleZero : SpectralDifferenceMethod :=
  ⟨2, 1, 0, fun _ => 0, fun _ _ => 1, fun _ _ => 1, fun _ _ => 1⟩

/-- Concrete array state used to instantiate hypotheses of the theorems
below. -/
def rhsStExample : RhsState :=
  ⟨fun v => v, fun v => v, fun v => v, fun v => v, fun v => v, fun v => v⟩

/-- Single-cell method with negative transport coefficient: its continuity
loop raises `IndexError` at iteration 0. -/
def sdExampleNegOne : SpectralDifferenceMethod :=
  ⟨1, 1, -1, fun _ => 0, fun _ _ => 0, fun _ _ => 0, fun _ _ => 0⟩

/-- Single-cell method with zero transport coefficient: the `c = 0` case
takes the same branch and also raises. -/
def sdExampleZeroOne : SpectralDifferenceMethod :=
  ⟨1, 1, 0, fun _ => 0, fun _ _ => 1, fun _ _ => 1, fun _ _ => 1⟩

section BdfLoopLemmas

variable {σ J : Type} (root : (σ → σ) → σ → J → RootResult σ) (jacobian : J)
  (F : σ → ℚ → ℚ → List σ → σ) (t : List ℚ) (i : ℕ)

theorem bdfPartial_succ (init : (ℕ → σ) × List String) (M : ℕ) :
    bdfPartial root jacobian F t i init (M + 1) =
      bdfStep root jacobian F t i (bdfPartial root jacobian F t i init M) M := by
  unfold bdfPartial
  rw [List.range_succ, List.foldl_append, List.foldl_cons, List.foldl_nil]

theorem bdfState_as_fold {z : σ}
    {rk_4 : σ → List ℚ → (σ → ℚ → σ) → List σ} {y0 : σ} {f : σ → ℚ → σ} :
    bdfState z rk_4 root i y0 t f F jacobian =
      bdfPartial root jacobian F t i (bdfInit z rk_4 i y0 t f, [])
        (t.length - i) := rfl

theorem bdfPartial_stable (init : (ℕ → σ) × List String) (M M' : ℕ)
    (h : M ≤ M') (m : ℕ) (hm : m < i + M) :
    (bdfPartial root jacobian F t i init M').1 m =
      (bdfPartial root jacobian F t i init M).1 m := by
  induction M', h using Nat.le_induction with
  | base => rfl
  | succ M' hMM ih =>
      rw [bdfPartial_succ]
      have hne : m ≠ M' + i := by omega
      simp only [bdfStep, npSet, hne, if_false]
      exact ih

theorem bdfPartial_untouched (init : (ℕ → σ) × List String) (M : ℕ) (m : ℕ)
    (hm : i + M ≤ m ∨ m < i) :
    (bdfPartial root jacobian F t i init M).1 m = init.1 m := by
  induction M with
  | zero => rfl
  | succ M ih =>
      rw [bdfPartial_succ]
      have hne : m ≠ M + i := by omega
      simp only [bdfStep, npSet, hne, if_false]
      exact ih (by omega)

theorem residualAt_congr {y1 y2 : ℕ → σ} (j : ℕ)
    (hw : ∀ m < i, y1 (j + m) = y2 (j + m)) :
    residualAt F t i y1 j = residualAt F t i y2 j := by
  funext u
  unfold residualAt window
  congr 1
  exact List.map_congr_left fun m hm => hw m (List.mem_range.mp hm)

theorem bdfPartial_write (init : (ℕ → σ) × List String) (M j : ℕ) (hj : j < M) :
    (bdfPartial root jacobian F t i init M).1 (j + i) =
      (root (residualAt F t i (bdfPartial root jacobian F t i init j).1 j)
        ((bdfPartial root jacobian F t i init j).1 (j + i - 1)) jacobian).x := by
  have h1 : (bdfPartial root jacobian F t i init M).1 (j + i) =
      (bdfPartial root jacobian F t i init (j + 1)).1 (j + i) :=
    bdfPartial_stable root jacobian F t i init (j + 1) M hj (j + i) (by omega)
  rw [h1, bdfPartial_succ]
  simp [bdfStep, npSet]

theorem bdfPartial_warns (init : (ℕ → σ) × List String) (M : ℕ) :
    (bdfPartial root jacobian F t i init M).2 =
      init.2 ++ (List.range M).filterMap (fun j =>
        let r := root (residualAt F t i (bdfPartial root jacobian F t i init j).1 j)
          ((bdfPartial root jacobian F t i init j).1 (j + i - 1)) jacobian
        if r.success then none else some r.message) := by
  induction M with
  | zero => simp [bdfPartial]
  | succ M ih =>
      rw [bdfPartial_succ, List.range_succ, List.filterMap_append]
      simp only [bdfStep]
      rw [ih]
      by_cases hs : (root (residualAt F t i (bdfPartial root jacobian F t i init M).1 M)
          ((bdfPartial root jacobian F t i init M).1 (M + i - 1)) jacobian).success
      · simp [hs]
      · simp [hs]

theorem bdfPartial_invariant (P : σ → Prop) (init : (ℕ → σ) × List String)
    (hinit : ∀ m, P (init.1 m))
    (hroot : ∀ R g jj, P g → P ((root R g jj).x)) (M : ℕ) :
    ∀ m, P ((bdfPartial root jacobian F t i init M).1 m) := by
  induction M with
  | zero => exact hinit
  | succ M ih =>
      intro m
      rw [bdfPartial_succ]
      simp only [bdfStep, npSet]
      by_cases h : m = M + i
      · simp only [h, if_true]
        exact hroot _ _ _ (ih (M + i - 1))
      · simp only [h, if_false]
        exact ih m

end BdfLoopLemmas

/-- C1: for every order `k` in 1..6, every window index `j` and every state
`u`, the residual handed to the root-finder by `_bdf_i` equals
`u - Σ c_m • y[j+m] - β*h*f(u, t[j+k])` with the standard BDF-k rational
coefficients of `bdfCoeffsSpec` and `h = t[j+k] - t[j+k-1]`, the spacing
between the latest two points of the window. -/
theorem C1_residual_is_standard_bdf {V : Type} [AddCommGroup V] [Module ℚ V]
    (f : V → ℚ → V) (t : List ℚ) (y : ℕ → V) (j : ℕ) (u : V) :
    residualAt (bdf1_F f) t 1 y j u = bdfSpecResidual 1 y j t f u ∧
    residualAt (bdf2_F f) t 2 y j u = bdfSpecResidual 2 y j t f u ∧
    residualAt (bdf3_F f) t 3 y j u = bdfSpecResidual 3 y j t f u ∧
    residualAt (bdf4_F f) t 4 y j u = bdfSpecResidual 4 y j t f u ∧
    residualAt (bdf5_F f) t 5 y j u = bdfSpecResidual 5 y j t f u ∧
    residualAt (bdf6_F f) t 6 y j u = bdfSpecResidual 6 y j t f u := by
  refine ⟨?_, ?_, ?_, ?_, ?_, ?_⟩ <;>
    simp [residualAt, window, bdf1_F, bdf2_F, bdf3_F, bdf4_F, bdf5_F, bdf6_F,
      bdf1_func_to_minimise, bdf2_func_to_minimise, bdf3_func_to_minimise,
      bdf4_func_to_minimise, bdf5_func_to_minimise, bdf6_func_to_minimise,
      bdfSpecResidual, bdfCoeffsSpec, Finset.sum_range_succ, List.range_succ]
  all_goals module

/-- C2: a non-converged nonlinear solve does not abort the integration: the
solver's best-effort root is stored as `y[j+i]` regardless of the flag, the
diagnostic messages of exactly the failed steps are emitted as warnings in
order, and a full length-`n` trajectory is still returned. -/
theorem C2_nonconvergence_is_nonfatal {σ J : Type} (z : σ)
    (rk_4 : σ → List ℚ → (σ → ℚ → σ) → List σ)
    (root : (σ → σ) → σ → J → RootResult σ) (i : ℕ) (y0 : σ) (t : List ℚ)
    (f : σ → ℚ → σ) (F : σ → ℚ → ℚ → List σ → σ) (jacobian : J)
    (hi : 1 ≤ i) (j : ℕ) (hj : j < t.length - i) :
    (_bdf_i z rk_4 root i y0 t f F jacobian).1.length = t.length ∧
    (_bdf_i z rk_4 root i y0 t f F jacobian).1.getD (j + i) z =
      (root (residualAt F t i (bdfState z rk_4 root i y0 t f F jacobian).1 j)
        ((bdfState z rk_4 root i y0 t f F jacobian).1 (j + i - 1)) jacobian).x ∧
    (_bdf_i z rk_4 root i y0 t f F jacobian).2 =
      (List.range (t.length - i)).filterMap (fun q =>
        let r := root
          (residualAt F t i (bdfState z rk_4 root i y0 t f F jacobian).1 q)
          ((bdfState z rk_4 root i y0 t f F jacobian).1 (q + i - 1)) jacobian
        if r.success then none else some r.message) := by
  have hres : ∀ q, q < t.length - i →
      residualAt F t i
          (bdfPartial root jacobian F t i (bdfInit z rk_4 i y0 t f, []) q).1 q =
        residualAt F t i (bdfState z rk_4 root i y0 t f F jacobian).1 q := by
    intro q hq
    apply residualAt_congr
    intro m hm
    rw [bdfState_as_fold]
    exact (bdfPartial_stable root jacobian F t i _ q (t.length - i) (by omega)
      (q + m) (by omega)).symm
  have hguess : ∀ q, q < t.length - i →
      (bdfPartial root jacobian F t i (bdfInit z rk_4 i y0 t f, []) q).1
          (q + i - 1) =
        (bdfState z rk_4 root i y0 t f F jacobian).1 (q + i - 1) := by
    intro q hq
    rw [bdfState_as_fold]
    exact (bdfPartial_stable root jacobian F t i _ q (t.length - i) (by omega)
      (q + i - 1) (by omega)).symm
  refine ⟨by simp [_bdf_i], ?_, ?_⟩
  · have hlt : j + i < t.length := by omega
    show ((List.range t.length).map
        (bdfState z rk_4 root i y0 t f F jacobian).1).getD (j + i) z = _
    rw [List.getD_eq_getElem _ _ (by simpa using hlt)]
    simp only [List.getElem_map, List.getElem_range]
    rw [bdfState_as_fold,
      bdfPartial_write root jacobian F t i _ (t.length - i) j hj,
      hres j hj, hguess j hj]
    rfl
  · show (bdfState z rk_4 root i y0 t f F jacobian).2 = _
    rw [bdfState_as_fold, bdfPartial_warns]
    simp only [List.nil_append]
    apply List.filterMap_congr
    intro q hq
    have hqlt : q < t.length - i := List.mem_range.mp hq
    simp only [hres q hqlt, hguess q hqlt]
    rfl

/-- C3: the first `i` samples of the returned trajectory are exactly the
output of the bootstrap `rk_4(y0, t[:i], f)`, and no later stepping rewrites
them. -/
theorem C3_bootstrap_prefix {σ J : Type} (z : σ)
    (rk_4 : σ → List ℚ → (σ → ℚ → σ) → List σ)
    (root : (σ → σ) → σ → J → RootResult σ) (i : ℕ) (y0 : σ) (t : List ℚ)
    (f : σ → ℚ → σ) (F : σ → ℚ → ℚ → List σ → σ) (jacobian : J)
    (hn : i + 1 ≤ t.length) (hlen : (rk_4 y0 (t.take i) f).length = i) :
    (_bdf_i z rk_4 root i y0 t f F jacobian).1.take i = rk_4 y0 (t.take i) f := by
  show ((List.range t.length).map
      (bdfState z rk_4 root i y0 t f F jacobian).1).take i = _
  rw [← List.map_take, List.take_range]
  have hmin : min i t.length = i := by omega
  rw [hmin]
  apply List.ext_getElem (by simp [hlen])
  intro m h1 h2
  simp only [List.getElem_map, List.getElem_range]
  have hm : m < i := by simpa using h1
  rw [bdfState_as_fold,
    bdfPartial_untouched root jacobian F t i _ (t.length - i) m (Or.inr hm)]
  show bdfInit z rk_4 i y0 t f m = _
  unfold bdfInit
  rw [if_pos hm, List.getD_eq_getElem _ _ (by omega)]

/-- Short-grid behaviour shared by all orders: when the grid has at most `i`
points the stepping loop `range(n - i)` is empty, so the call returns the
bootstrap-filled trajectory and no warnings, raising nothing. -/
theorem bdf_short_grid {σ J : Type} (z : σ)
    (rk_4 : σ → List ℚ → (σ → ℚ → σ) → List σ)
    (root : (σ → σ) → σ → J → RootResult σ) (i : ℕ) (y0 : σ) (t : List ℚ)
    (f : σ → ℚ → σ) (F : σ → ℚ → ℚ → List σ → σ) (jacobian : J)
    (hn : t.length ≤ i) (hlen : (rk_4 y0 t f).length = t.length) :
    _bdf_i z rk_4 root i y0 t f F jacobian = (rk_4 y0 t f, []) := by
  have h0 : t.length - i = 0 := by omega
  have htake : t.take i = t := List.take_of_length_le hn
  have hstate : bdfState z rk_4 root i y0 t f F jacobian =
      (bdfInit z rk_4 i y0 t f, []) := by
    rw [bdfState_as_fold, h0]
    rfl
  unfold _bdf_i
  rw [hstate]
  refine Prod.ext ?_ rfl
  show (List.range t.length).map (bdfInit z rk_4 i y0 t f) = rk_4 y0 t f
  apply List.ext_getElem (by simp [hlen])
  intro m h1 h2
  simp only [List.getElem_map, List.getElem_range]
  unfold bdfInit
  rw [htake, if_pos (by simpa using Nat.lt_of_lt_of_le (by simpa using h1) hn),
    List.getD_eq_getElem _ _ (by omega)]

/-- C9: with a grid of at most `i` points the call returns normally: the
stepping loop executes zero times, the trajectory consists solely of the
bootstrap samples, and no warning is emitted. -/
theorem C9_short_grid_bootstrap_only {σ J : Type} (z : σ)
    (rk_4 : σ → List ℚ → (σ → ℚ → σ) → List σ)
    (root : (σ → σ) → σ → J → RootResult σ) (i : ℕ) (y0 : σ) (t : List ℚ)
    (f : σ → ℚ → σ) (F : σ → ℚ → ℚ → List σ → σ) (jacobian : J)
    (hn : t.length ≤ i) (hlen : (rk_4 y0 t f).length = t.length) :
    (_bdf_i z rk_4 root i y0 t f F jacobian).1 = rk_4 y0 t f ∧
    (_bdf_i z rk_4 root i y0 t f F jacobian).2 = [] := by
  rw [bdf_short_grid z rk_4 root i y0 t f F jacobian hn hlen]
  exact ⟨rfl, rfl⟩

/-- C4 (counterexample): calling `bdf_1` on a one-point grid, strictly
shorter than the required `k + 1 = 2` points, does not fail: it returns the
bootstrap-only trajectory and an empty warning list, so no
`InsufficientGridError` (or any error) is raised before stepping. -/
theorem C4_counterexample :
    bdf_1 (0 : ℚ) (fun w ts _ => ts.map fun _ => w)
      (fun _ g _ => ⟨g, true, "ok"⟩) 5 [0] (fun u _ => u) none = ([5], []) := by
  rfl

/-- C4 (amended): for every order `k` in 1..6, a grid with fewer than `k + 1`
points makes `bdf_k` return normally with the bootstrap-only trajectory and
no warnings; no error is raised. -/
theorem C4_amended_short_grid_returns {σ : Type} [AddCommGroup σ] [Module ℚ σ]
    (z : σ) (rk_4 : σ → List ℚ → (σ → ℚ → σ) → List σ)
    (root : (σ → σ) → σ → Option (NpVal → ℚ → ℚ → Option (List (List ℚ))) →
      RootResult σ)
    (y0 : σ) (t : List ℚ) (f : σ → ℚ → σ) (jac : Option (NpVal → ℚ → NpVal))
    (hlen : (rk_4 y0 t f).length = t.length) :
    (t.length < 1 + 1 → bdf_1 z rk_4 root y0 t f jac = (rk_4 y0 t f, [])) ∧
    (t.length < 2 + 1 → bdf_2 z rk_4 root y0 t f jac = (rk_4 y0 t f, [])) ∧
    (t.length < 3 + 1 → bdf_3 z rk_4 root y0 t f jac = (rk_4 y0 t f, [])) ∧
    (t.length < 4 + 1 → bdf_4 z rk_4 root y0 t f jac = (rk_4 y0 t f, [])) ∧
    (t.length < 5 + 1 → bdf_5 z rk_4 root y0 t f jac = (rk_4 y0 t f, [])) ∧
    (t.length < 6 + 1 → bdf_6 z rk_4 root y0 t f jac = (rk_4 y0 t f, [])) :=
  ⟨fun h => bdf_short_grid z rk_4 root 1 y0 t f (bdf1_F f)
      (jac.map bdf1_jacobian) (by omega) hlen,
   fun h => bdf_short_grid z rk_4 root 2 y0 t f (bdf2_F f)
      (jac.map bdf2_jacobian) (by omega) hlen,
   fun h => bdf_short_grid z rk_4 root 3 y0 t f (bdf3_F f)
      (jac.map bdf3_jacobian) (by omega) hlen,
   fun h => bdf_short_grid z rk_4 root 4 y0 t f (bdf4_F f)
      (jac.map bdf4_jacobian) (by omega) hlen,
   fun h => bdf_short_grid z rk_4 root 5 y0 t f (bdf5_F f)
      (jac.map bdf5_jacobian) (by omega) hlen,
   fun h => bdf_short_grid z rk_4 root 6 y0 t f (bdf6_F f)
      (jac.map bdf6_jacobian) (by omega) hlen⟩

/-- C6: a successful call returns a trajectory with exactly `len(t)` samples,
each of the same shape as `y0`: in the vector instantiation every sample is a
list of the dimension of `y0` (given the contracts that the bootstrap returns
rows of that dimension and the root-finder returns a root shaped like its
guess), and in the scalar instantiation every sample is a scalar by the type
of the call, with the same trajectory length. -/
theorem C6_trajectory_shape {J : Type}
    (rk_4v : List ℚ → List ℚ → (List ℚ → ℚ → List ℚ) → List (List ℚ))
    (rootv : (List ℚ → List ℚ) → List ℚ → J → RootResult (List ℚ))
    (i : ℕ) (y0 : List ℚ) (t : List ℚ) (fv : List ℚ → ℚ → List ℚ)
    (Fv : List ℚ → ℚ → ℚ → List (List ℚ) → List ℚ) (jacv : J)
    (rk_4s : ℚ → List ℚ → (ℚ → ℚ → ℚ) → List ℚ)
    (roots : (ℚ → ℚ) → ℚ → J → RootResult ℚ)
    (y0s : ℚ) (fs : ℚ → ℚ → ℚ) (Fs : ℚ → ℚ → ℚ → List ℚ → ℚ) (jacs : J)
    (hboot : ∀ r ∈ rk_4v y0 (t.take i) fv, r.length = y0.length)
    (hroot : ∀ R g jj, ((rootv R g jj).x).length = g.length) :
    (_bdf_i (List.replicate y0.length 0) rk_4v rootv i y0 t fv Fv jacv).1.length
        = t.length ∧
    (∀ r ∈ (_bdf_i (List.replicate y0.length 0) rk_4v rootv i y0 t fv Fv
        jacv).1, r.length = y0.length) ∧
    (_bdf_i (0 : ℚ) rk_4s roots i y0s t fs Fs jacs).1.length = t.length := by
  refine ⟨by simp [_bdf_i], ?_, by simp [_bdf_i]⟩
  intro r hr
  show r.length = y0.length
  have hmem : ∃ m, (bdfState (List.replicate y0.length 0) rk_4v rootv i y0 t
      fv Fv jacv).1 m = r := by
    simp only [_bdf_i, List.mem_map] at hr
    obtain ⟨m, _, hm⟩ := hr
    exact ⟨m, hm⟩
  obtain ⟨m, hm⟩ := hmem
  rw [← hm, bdfState_as_fold]
  refine bdfPartial_invariant rootv jacv Fv t i (fun v => v.length = y0.length)
    _ ?_ (fun R g jj hg => by
      show ((rootv R g jj).x).length = y0.length
      rw [hroot R g jj]
      exact hg) (t.length - i) m
  intro m'
  show (bdfInit (List.replicate y0.length 0) rk_4v i y0 t fv m').length = _
  unfold bdfInit
  by_cases hmi : m' < i
  · rw [if_pos hmi]
    by_cases hml : m' < (rk_4v y0 (t.take i) fv).length
    · have hel : (rk_4v y0 (t.take i) fv).getD m' (List.replicate y0.length 0)
          ∈ rk_4v y0 (t.take i) fv := by
        rw [List.getD_eq_getElem _ _ hml]
        exact List.getElem_mem hml
      exact hboot _ hel
    · rw [List.getD_eq_default _ _ (by omega)]
      exact List.length_replicate _ _
  · rw [if_neg hmi]
    exact List.length_replicate _ _

theorem headD_length_of_rect {mm : List (List ℚ)} {d : ℕ} (hrows : mm.length = d)
    (hcols : ∀ row ∈ mm, row.length = d) : (mm.headD []).length = d := by
  cases mm with
  | nil =>
      simp only [List.headD_nil, List.length_nil]
      simpa using hrows
  | cons a as =>
      simp only [List.headD_cons]
      exact hcols a (List.mem_cons_self a as)

/-- C5 (counterexample): with a scalar state and a user Jacobian returning a
bare scalar — the natural shape in the scalar case — the adapter built by
`bdf_1` does not produce the scalar identity `1`: `np.eye(*foo.shape)` is
called with no argument and raises, modelled as `none`. -/
theorem C5_counterexample :
    bdf1_jacobian (fun _ _ => NpVal.scal 5) (NpVal.scal 0) 0 1 = none := rfl

/-- C5 (amended): whenever the user Jacobian returns a `d × d` matrix, the
Jacobian handed to the root-finder by each order's adapter is exactly
`I - β*h*jac(u, t_new)` with `h = t_new - t_prev`, `β` the order's
coefficient from the BDF table, and `I` the `d × d` identity (sized from the
shape of the Jacobian's value, which equals the state dimension for a
well-formed Jacobian); a Jacobian returning a bare scalar instead causes a
`TypeError` in `np.eye`, so no plain scalar identity is ever used. -/
theorem C5_amended_jacobian_of_residual (jac : NpVal → ℚ → NpVal) (u : NpVal)
    (t0 t1 : ℚ) (d : ℕ) (mm : List (List ℚ)) (hm : jac u t1 = .mat mm)
    (hrows : mm.length = d) (hcols : ∀ row ∈ mm, row.length = d) :
    bdf1_jacobian jac u t0 t1 =
      some (matSub (npEye d d) (matSMul ((bdfCoeffsSpec 1).2 * (t1 - t0)) mm)) ∧
    bdf2_jacobian jac u t0 t1 =
      some (matSub (npEye d d) (matSMul ((bdfCoeffsSpec 2).2 * (t1 - t0)) mm)) ∧
    bdf3_jacobian jac u t0 t1 =
      some (matSub (npEye d d) (matSMul ((bdfCoeffsSpec 3).2 * (t1 - t0)) mm)) ∧
    bdf4_jacobian jac u t0 t1 =
      some (matSub (npEye d d) (matSMul ((bdfCoeffsSpec 4).2 * (t1 - t0)) mm)) ∧
    bdf5_jacobian jac u t0 t1 =
      some (matSub (npEye d d) (matSMul ((bdfCoeffsSpec 5).2 * (t1 - t0)) mm)) ∧
    bdf6_jacobian jac u t0 t1 =
      some (matSub (npEye d d) (matSMul ((bdfCoeffsSpec 6).2 * (t1 - t0)) mm)) := by
  have hhead : (mm.headD []).length = d := headD_length_of_rect hrows hcols
  refine ⟨?_, ?_, ?_, ?_, ?_, ?_⟩
  · unfold bdf1_jacobian
    rw [hm]
    simp only [NpVal.shape, hrows, hhead, npEyeStar, Option.map_some', bdfCoeffsSpec]
    rw [show ((1 : ℚ)) * (t1 - t0) = t1 - t0 by ring]
  · unfold bdf2_jacobian
    rw [hm]
    simp only [NpVal.shape, hrows, hhead, npEyeStar, Option.map_some', bdfCoeffsSpec]
    rw [show ((2 : ℚ) / 3) * (t1 - t0) = 2 * (t1 - t0) / 3 by ring]
  · unfold bdf3_jacobian
    rw [hm]
    simp only [NpVal.shape, hrows, hhead, npEyeStar, Option.map_some', bdfCoeffsSpec]
    rw [show ((6 : ℚ) / 11) * (t1 - t0) = 6 * (t1 - t0) / 11 by ring]
  · unfold bdf4_jacobian
    rw [hm]
    simp only [NpVal.shape, hrows, hhead, npEyeStar, Option.map_some', bdfCoeffsSpec]
    rw [show ((12 : ℚ) / 25) * (t1 - t0) = 12 * (t1 - t0) / 25 by ring]
  · unfold bdf5_jacobian
    rw [hm]
    simp only [NpVal.shape, hrows, hhead, npEyeStar, Option.map_some', bdfCoeffsSpec]
    rw [show ((60 : ℚ) / 137) * (t1 - t0) = 60 * (t1 - t0) / 137 by ring]
  · unfold bdf6_jacobian
    rw [hm]
    simp only [NpVal.shape, hrows, hhead, npEyeStar, Option.map_some', bdfCoeffsSpec]
    rw [show ((60 : ℚ) / 147) * (t1 - t0) = 60 * (t1 - t0) / 147 by ring]

theorem foldl_npSet_untouched {α : Type} (tgt src : ℕ → ℕ) (l : List ℕ)
    (a : ℕ → α) (x : ℕ) (hx : ∀ j ∈ l, x ≠ tgt j) :
    l.foldl (fun acc j => npSet acc (tgt j) (acc (src j))) a x = a x := by
  induction l generalizing a with
  | nil => rfl
  | cons h rest ih =>
      rw [List.foldl_cons]
      rw [ih _ fun j hj => hx j (List.mem_cons_of_mem h hj)]
      simp [npSet, hx h (List.mem_cons_self h rest)]

theorem foldl_npSet_write {α : Type} (tgt src : ℕ → ℕ) (l : List ℕ)
    (a : ℕ → α) (j : ℕ) (hj : j ∈ l) (hnd : l.Nodup)
    (hsrc : ∀ j' ∈ l, ∀ k ∈ l, src j' ≠ tgt k)
    (hinj : ∀ j' ∈ l, ∀ k ∈ l, tgt j' = tgt k → j' = k) :
    l.foldl (fun acc j' => npSet acc (tgt j') (acc (src j'))) a (tgt j) =
      a (src j) := by
  induction l generalizing a with
  | nil => cases hj
  | cons h rest ih =>
      rw [List.foldl_cons]
      rcases List.mem_cons.mp hj with rfl | hmem
      · rw [foldl_npSet_untouched]
        · simp [npSet]
        · intro k hk heq
          have hjk : j = k := hinj j (List.mem_cons_self j rest) k
            (List.mem_cons_of_mem j hk) heq
          subst hjk
          exact (List.nodup_cons.mp hnd).1 hk
      · rw [ih _ hmem (List.nodup_cons.mp hnd).2
          (fun j' hj' k hk =>
            hsrc j' (List.mem_cons_of_mem h hj') k (List.mem_cons_of_mem h hk))
          (fun j' hj' k hk =>
            hinj j' (List.mem_cons_of_mem h hj') k (List.mem_cons_of_mem h hk))]
        simp only [npSet]
        rw [if_neg (hsrc j (List.mem_cons_of_mem h hmem) h
          (List.mem_cons_self h rest))]

theorem pyIdx_of_lt {N : ℕ} {x : ℤ} (h0 : 0 ≤ x) (h : x < N) :
    pyIdx N x = x.toNat := by
  unfold pyIdx
  rw [Int.emod_eq_of_lt h0 h]

theorem pyIdx_add_self (N : ℕ) (x : ℤ) : pyIdx N (x + N) = pyIdx N x := by
  unfold pyIdx
  have hx : x + (N : ℤ) = x + (N : ℤ) * 1 := by ring
  rw [hx, Int.add_mul_emod_self_left]

theorem pyIdx_neg {N : ℕ} (hN : 0 < N) {x : ℤ} (hx0 : -(N : ℤ) ≤ x)
    (hx : x < 0) : pyIdx N x = (x + N).toNat := by
  rw [← pyIdx_add_self N x]
  exact pyIdx_of_lt (by omega) (by omega)

theorem pyIdx_cast {N : ℕ} (hN : 0 < N) (x : ℤ) :
    ((pyIdx N x : ℕ) : ℤ) = x % N := by
  unfold pyIdx
  exact Int.toNat_of_nonneg (Int.emod_nonneg x (by exact_mod_cast hN.ne'))

theorem pyIdx_res (N q : ℕ) (hN : 0 < N) (hdvd : (q : ℤ) ∣ (N : ℤ)) (x : ℤ) :
    ((pyIdx N x : ℕ) : ℤ) % q = x % q := by
  rw [pyIdx_cast hN]
  exact Int.emod_emod_of_dvd x hdvd

theorem pyIdx_inj {N : ℕ} (hN : 0 < N) {x x' : ℤ} (h : pyIdx N x = pyIdx N x')
    (hne : x ≠ x') (habs : |x - x'| < N) : False := by
  have h1 : x % N = x' % N := by
    have h2 := congrArg (fun v : ℕ => (v : ℤ)) h
    simpa [pyIdx_cast hN] using h2
  have h2 : (N : ℤ) ∣ (x - x') := by
    rw [Int.emod_eq_emod_iff_emod_sub_eq_zero] at h1
    exact Int.dvd_of_emod_eq_zero h1
  have h3 : (N : ℤ) ≤ |x - x'| :=
    Int.le_of_dvd (abs_pos.mpr (sub_ne_zero.mpr hne)) ((dvd_abs _ _).mpr h2)
  linarith

theorem emod_mul_sub_one (p : ℕ) (j : ℤ) :
    (j * ((p : ℤ) + 1) - 1) % ((p : ℤ) + 1) = p := by
  have h1 : j * ((p : ℤ) + 1) - 1 = (p : ℤ) + ((p : ℤ) + 1) * (j - 1) := by ring
  rw [h1, Int.add_mul_emod_self_left,
    Int.emod_eq_of_lt (by positivity) (by omega)]

theorem emod_mul_self (p : ℕ) (j : ℤ) :
    (j * ((p : ℤ) + 1)) % ((p : ℤ) + 1) = 0 := by
  simp [Int.mul_emod_left, Int.mul_emod_right]

theorem pyIdx_prev_right (n p : ℕ) (hn : 1 ≤ n) (hp : 1 ≤ p) (i : ℕ)
    (hi : i < n) :
    pyIdx (n * (p + 1)) ((i : ℤ) * ((p : ℤ) + 1) - 1) =
      ((i + n - 1) % n) * (p + 1) + p := by
  have hN : 0 < n * (p + 1) := by positivity
  have hNp : p + 1 ≤ n * (p + 1) := Nat.le_mul_of_pos_left (p + 1) hn
  rcases Nat.eq_zero_or_pos i with rfl | hpos
  · have hx : ((0 : ℕ) : ℤ) * ((p : ℤ) + 1) - 1 = -1 := by norm_num
    rw [hx, pyIdx_neg hN (by omega) (by omega)]
    have hmod : (0 + n - 1) % n = n - 1 := by
      rw [Nat.zero_add]
      exact Nat.mod_eq_of_lt (by omega)
    rw [hmod, Nat.sub_one_mul]
    omega
  · have h1 : ((p : ℤ) + 1) ≤ (i : ℤ) * ((p : ℤ) + 1) :=
      le_mul_of_one_le_left (by positivity) (by exact_mod_cast hpos)
    have h2 : (i : ℤ) * ((p : ℤ) + 1) ≤ (n : ℤ) * ((p : ℤ) + 1) :=
      mul_le_mul_of_nonneg_right (by exact_mod_cast hi.le) (by positivity)
    rw [pyIdx_of_lt (by omega) (by push_cast; omega)]
    have hmod : (i + n - 1) % n = i - 1 := by
      have h3 : i + n - 1 = (i - 1) + n := by omega
      rw [h3, Nat.add_mod_right]
      exact Nat.mod_eq_of_lt (by omega)
    rw [hmod, Nat.sub_one_mul]
    have h4 : (i : ℤ) * ((p : ℤ) + 1) = ((i * (p + 1) : ℕ) : ℤ) := by
      push_cast
      ring
    omega

theorem sd_pos_src_ne_tgt {n p : ℕ} (hp : 1 ≤ p) (hn : 1 ≤ n) (j k : ℕ) :
    pyIdx (n * (p + 1)) ((j : ℤ) * ((p : ℤ) + 1) - 1) ≠ k * (p + 1) := by
  intro heq
  have hN : 0 < n * (p + 1) := by positivity
  have hdvd : ((p + 1 : ℕ) : ℤ) ∣ ((n * (p + 1) : ℕ) : ℤ) :=
    ⟨n, by push_cast; ring⟩
  have hres := pyIdx_res (n * (p + 1)) (p + 1) hN hdvd
    ((j : ℤ) * ((p : ℤ) + 1) - 1)
  rw [heq] at hres
  push_cast at hres
  rw [emod_mul_sub_one, emod_mul_self] at hres
  omega

theorem sd_neg_src_ne_tgt {n p : ℕ} (hp : 1 ≤ p) (hn : 1 ≤ n) (j k : ℕ) :
    pyIdx (n * (p + 1)) (((j : ℤ) - 1) * ((p : ℤ) + 1)) ≠
      pyIdx (n * (p + 1)) (((k : ℤ) - 1) * ((p : ℤ) + 1) - 1) := by
  intro heq
  have hN : 0 < n * (p + 1) := by positivity
  have hdvd : ((p + 1 : ℕ) : ℤ) ∣ ((n * (p + 1) : ℕ) : ℤ) :=
    ⟨n, by push_cast; ring⟩
  have h1 := pyIdx_res (n * (p + 1)) (p + 1) hN hdvd
    (((j : ℤ) - 1) * ((p : ℤ) + 1))
  have h2 := pyIdx_res (n * (p + 1)) (p + 1) hN hdvd
    (((k : ℤ) - 1) * ((p : ℤ) + 1) - 1)
  rw [heq] at h1
  have h3 := h1.symm.trans h2
  push_cast at h3
  rw [emod_mul_self, emod_mul_sub_one] at h3
  omega

theorem sd_neg_tgt_inj {n p : ℕ} (hn : 1 ≤ n) (j k : ℕ) (hj : j < n)
    (hk : k < n)
    (heq : pyIdx (n * (p + 1)) (((j : ℤ) - 1) * ((p : ℤ) + 1) - 1) =
      pyIdx (n * (p + 1)) (((k : ℤ) - 1) * ((p : ℤ) + 1) - 1)) : j = k := by
  by_contra hne
  have hN : 0 < n * (p + 1) := by positivity
  refine pyIdx_inj hN heq ?_ ?_
  · intro hxx
    apply hne
    have h1 : ((j : ℤ) - 1) * ((p : ℤ) + 1) = ((k : ℤ) - 1) * ((p : ℤ) + 1) := by
      omega
    have h2 : (j : ℤ) - 1 = (k : ℤ) - 1 :=
      mul_right_cancel₀ (by positivity : (0 : ℤ) < (p : ℤ) + 1).ne' h1
    omega
  · have hxx : (((j : ℤ) - 1) * ((p : ℤ) + 1) - 1) -
        ((((k : ℤ) - 1) * ((p : ℤ) + 1) - 1)) = ((j : ℤ) - k) * ((p : ℤ) + 1) := by
      ring
    rw [hxx, abs_mul, abs_of_pos (by positivity : (0 : ℤ) < (p : ℤ) + 1)]
    have hjk : |(j : ℤ) - k| ≤ (n : ℤ) - 1 := by
      rw [abs_le]
      omega
    have hup : |(j : ℤ) - k| * ((p : ℤ) + 1) ≤ ((n : ℤ) - 1) * ((p : ℤ) + 1) :=
      mul_le_mul_of_nonneg_right hjk (by positivity)
    have hlt : ((n : ℤ) - 1) * ((p : ℤ) + 1) < (n : ℤ) * ((p : ℤ) + 1) :=
      mul_lt_mul_of_pos_right (by omega) (by positivity)
    have hcast : (n : ℤ) * ((p : ℤ) + 1) = ((n * (p + 1) : ℕ) : ℤ) := by
      push_cast
      ring
    omega

theorem pyIdx_neg_tgt (n p : ℕ) (hn : 1 ≤ n) (hp : 1 ≤ p) (i : ℕ) (hi : i < n) :
    pyIdx (n * (p + 1)) (((i : ℤ) - 1) * ((p : ℤ) + 1) - 1) =
      ((i + 2 * n - 2) % n) * (p + 1) + p := by
  have hN : 0 < n * (p + 1) := by positivity
  have hNp : p + 1 ≤ n * (p + 1) := Nat.le_mul_of_pos_left (p + 1) hn
  rcases Nat.eq_zero_or_pos i with rfl | hipos
  · rcases Nat.lt_or_ge n 2 with hn1 | hn2
    · obtain rfl : n = 1 := by omega
      have hxeq : (((0 : ℕ) : ℤ) - 1) * ((p : ℤ) + 1) - 1 =
          (-1 : ℤ) + -((1 * (p + 1) : ℕ) : ℤ) := by
        push_cast
        ring
      rw [hxeq]
      have h1 : pyIdx (1 * (p + 1)) ((-1 : ℤ) + -((1 * (p + 1) : ℕ) : ℤ)) =
          pyIdx (1 * (p + 1)) (-1) := by
        have h2 := pyIdx_add_self (1 * (p + 1))
          ((-1 : ℤ) + -((1 * (p + 1) : ℕ) : ℤ))
        rw [show ((-1 : ℤ) + -((1 * (p + 1) : ℕ) : ℤ)) + ((1 * (p + 1) : ℕ) : ℤ)
          = (-1 : ℤ) by ring] at h2
        exact h2.symm
      rw [h1, pyIdx_neg hN (by omega) (by omega)]
      omega
    · have h2n : 2 * (p + 1) ≤ n * (p + 1) := Nat.mul_le_mul_right (p + 1) hn2
      have hxeq : (((0 : ℕ) : ℤ) - 1) * ((p : ℤ) + 1) - 1 = -((p : ℤ) + 2) := by
        push_cast
        ring
      rw [hxeq, pyIdx_neg hN (by omega) (by omega)]
      have hmod : (0 + 2 * n - 2) % n = n - 2 := by
        have h1 : 0 + 2 * n - 2 = (n - 2) + n * 1 := by omega
        rw [h1, Nat.add_mul_mod_self_left]
        exact Nat.mod_eq_of_lt (by omega)
      rw [hmod]
      have h2 : (n - 2) * (p + 1) = n * (p + 1) - 2 * (p + 1) := Nat.sub_mul n 2 (p + 1)
      omega
  · rcases Nat.lt_or_ge i 2 with hi1 | hi2
    · obtain rfl : i = 1 := by omega
      have hxeq : (((1 : ℕ) : ℤ) - 1) * ((p : ℤ) + 1) - 1 = (-1 : ℤ) := by
        push_cast
        ring
      rw [hxeq, pyIdx_neg hN (by omega) (by omega)]
      have hmod : (1 + 2 * n - 2) % n = n - 1 := by
        have h1 : 1 + 2 * n - 2 = (n - 1) + n * 1 := by omega
        rw [h1, Nat.add_mul_mod_self_left]
        exact Nat.mod_eq_of_lt (by omega)
      rw [hmod, Nat.sub_one_mul]
      omega
    · obtain ⟨i', rfl⟩ : ∃ i', i = i' + 2 := ⟨i - 2, by omega⟩
      have hxeq : (((i' + 2 : ℕ) : ℤ) - 1) * ((p : ℤ) + 1) - 1 =
          (((i' + 1) * (p + 1) : ℕ) : ℤ) - 1 := by
        push_cast
        ring
      have hone : 1 * 1 ≤ (i' + 1) * (p + 1) := Nat.mul_le_mul (by omega) (by omega)
      have hub : (i' + 1) * (p + 1) ≤ n * (p + 1) :=
        Nat.mul_le_mul_right (p + 1) (by omega)
      rw [hxeq, pyIdx_of_lt (by omega) (by omega)]
      have hmod : (i' + 2 + 2 * n - 2) % n = i' := by
        have h1 : i' + 2 + 2 * n - 2 = i' + n * 2 := by omega
        rw [h1, Nat.add_mul_mod_self_left]
        exact Nat.mod_eq_of_lt (by omega)
      rw [hmod]
      have h3 : (i' + 1) * (p + 1) = i' * (p + 1) + (p + 1) := Nat.succ_mul i' (p + 1)
      omega

theorem pyIdx_neg_src (n p : ℕ) (hn : 1 ≤ n) (i : ℕ) (hi : i < n) :
    pyIdx (n * (p + 1)) (((i : ℤ) - 1) * ((p : ℤ) + 1)) =
      ((i + n - 1) % n) * (p + 1) := by
  have hN : 0 < n * (p + 1) := by positivity
  have hNp : p + 1 ≤ n * (p + 1) := Nat.le_mul_of_pos_left (p + 1) hn
  rcases Nat.eq_zero_or_pos i with rfl | hipos
  · have hxeq : (((0 : ℕ) : ℤ) - 1) * ((p : ℤ) + 1) = -((p : ℤ) + 1) := by
      push_cast
      ring
    rw [hxeq, pyIdx_neg hN (by omega) (by omega)]
    have hmod : (0 + n - 1) % n = n - 1 := by
      rw [Nat.zero_add]
      exact Nat.mod_eq_of_lt (by omega)
    rw [hmod, Nat.sub_one_mul]
    omega
  · have hxeq : (((i : ℕ) : ℤ) - 1) * ((p : ℤ) + 1) =
        (((i - 1) * (p + 1) : ℕ) : ℤ) := by
      push_cast [hipos]
      ring
    have hub : (i - 1) * (p + 1) ≤ n * (p + 1) :=
      Nat.mul_le_mul_right (p + 1) (by omega)
    have h1 : (i - 1) * (p + 1) < n * (p + 1) :=
      (Nat.mul_lt_mul_right (show 0 < p + 1 by omega)).mpr (by omega)
    rw [hxeq, pyIdx_of_lt (by omega) (by exact_mod_cast h1)]
    have hmod : (i + n - 1) % n = i - 1 := by
      have h3 : i + n - 1 = (i - 1) + n := by omega
      rw [h3, Nat.add_mod_right]
      exact Nat.mod_eq_of_lt (by omega)
    rw [hmod]
    omega

theorem sdWrap_pos (m : SpectralDifferenceMethod) (hp : 1 ≤ m.p)
    (hn : 1 ≤ m.n_cell) (hc : 0 < m.c) (a : ℕ → ℚ) (i : ℕ)
    (hi : i < m.n_cell) :
    ((List.range m.n_cell).foldl (sdContinuityWrap m) a) (i * (m.p + 1)) =
      a (pyIdx (m.n_cell * (m.p + 1)) ((i : ℤ) * (m.p + 1) - 1)) := by
  have hstep : sdContinuityWrap m = fun acc q => npSet acc (q * (m.p + 1))
      (acc (pyIdx (m.n_cell * (m.p + 1)) ((q : ℤ) * (m.p + 1) - 1))) := by
    funext acc q
    simp only [sdContinuityWrap]
    rw [if_pos hc]
  rw [hstep]
  exact foldl_npSet_write (fun q => q * (m.p + 1))
    (fun q => pyIdx (m.n_cell * (m.p + 1)) ((q : ℤ) * (m.p + 1) - 1))
    (List.range m.n_cell) a i (List.mem_range.mpr hi) (List.nodup_range _)
    (fun j' _ k _ => sd_pos_src_ne_tgt hp hn j' k)
    (fun j' _ k _ heq => Nat.eq_of_mul_eq_mul_right (by omega) heq)

theorem sdWrap_neg (m : SpectralDifferenceMethod) (hp : 1 ≤ m.p)
    (hn : 1 ≤ m.n_cell) (hc : m.c < 0) (a : ℕ → ℚ) (i : ℕ)
    (hi : i < m.n_cell) :
    ((List.range m.n_cell).foldl (sdContinuityWrap m) a)
        (pyIdx (m.n_cell * (m.p + 1)) (((i : ℤ) - 1) * (m.p + 1) - 1)) =
      a (pyIdx (m.n_cell * (m.p + 1)) (((i : ℤ) - 1) * (m.p + 1))) := by
  have hstep : sdContinuityWrap m = fun acc (q : ℕ) =>
      npSet acc (pyIdx (m.n_cell * (m.p + 1)) (((q : ℤ) - 1) * (m.p + 1) - 1))
        (acc (pyIdx (m.n_cell * (m.p + 1)) (((q : ℤ) - 1) * (m.p + 1)))) := by
    funext acc q
    simp only [sdContinuityWrap]
    rw [if_neg (not_lt.mpr hc.le)]
  rw [hstep]
  exact foldl_npSet_write
    (fun q => pyIdx (m.n_cell * (m.p + 1)) (((q : ℤ) - 1) * (m.p + 1) - 1))
    (fun q => pyIdx (m.n_cell * (m.p + 1)) (((q : ℤ) - 1) * (m.p + 1)))
    (List.range m.n_cell) a i (List.mem_range.mpr hi) (List.nodup_range _)
    (fun j' _ k _ => sd_neg_src_ne_tgt hp hn j' k)
    (fun j' hj' k hk heq => sd_neg_tgt_inj hn j' k (List.mem_range.mp hj')
      (List.mem_range.mp hk) heq)

theorem sdWrap_neg_cells (m : SpectralDifferenceMethod) (hp : 1 ≤ m.p)
    (hn : 1 ≤ m.n_cell) (hc : m.c < 0) (a : ℕ → ℚ) (j : ℕ)
    (hj : j < m.n_cell) :
    ((List.range m.n_cell).foldl (sdContinuityWrap m) a) (j * (m.p + 1) + m.p) =
      a (((j + 1) % m.n_cell) * (m.p + 1)) := by
  have hi0 : (j + 2) % m.n_cell < m.n_cell := Nat.mod_lt _ (by omega)
  have h := sdWrap_neg m hp hn hc a ((j + 2) % m.n_cell) hi0
  rw [pyIdx_neg_tgt m.n_cell m.p hn hp ((j + 2) % m.n_cell) hi0,
    pyIdx_neg_src m.n_cell m.p hn ((j + 2) % m.n_cell) hi0] at h
  have hA : ((j + 2) % m.n_cell + 2 * m.n_cell - 2) % m.n_cell = j := by
    have h1 : (j + 2) % m.n_cell + 2 * m.n_cell - 2 =
        (j + 2) % m.n_cell + (2 * m.n_cell - 2) := by omega
    rw [h1, Nat.mod_add_mod]
    have h2 : j + 2 + (2 * m.n_cell - 2) = j + m.n_cell * 2 := by omega
    rw [h2, Nat.add_mul_mod_self_left]
    exact Nat.mod_eq_of_lt hj
  have hB : ((j + 2) % m.n_cell + m.n_cell - 1) % m.n_cell =
      (j + 1) % m.n_cell := by
    have h1 : (j + 2) % m.n_cell + m.n_cell - 1 =
        (j + 2) % m.n_cell + (m.n_cell - 1) := by omega
    rw [h1, Nat.mod_add_mod]
    have h2 : j + 2 + (m.n_cell - 1) = j + 1 + m.n_cell * 1 := by omega
    rw [h2, Nat.add_mul_mod_self_left]
  rw [hA, hB] at h
  exact h

theorem sdContinuityStep_pos_ok (m : SpectralDifferenceMethod) (hc : 0 < m.c)
    (arr : ℕ → ℚ) (i : ℕ) (hi : i < m.n_cell) :
    sdContinuityStep m (.ok arr) i = .ok (sdContinuityWrap m arr i) := by
  have hub : i * (m.p + 1) < m.n_cell * (m.p + 1) :=
    (Nat.mul_lt_mul_right (show 0 < m.p + 1 by omega)).mpr hi
  have hcast : ((i * (m.p + 1) : ℕ) : ℤ) = (i : ℤ) * (m.p + 1) := by
    push_cast
    ring
  have hsrc : pyIdx? (m.n_cell * (m.p + 1)) ((i : ℤ) * (m.p + 1) - 1) =
      some (pyIdx (m.n_cell * (m.p + 1)) ((i : ℤ) * (m.p + 1) - 1)) := by
    unfold pyIdx?
    rw [if_pos ⟨by omega, by omega⟩]
  have htgt : pyIdx? (m.n_cell * (m.p + 1)) ((i : ℤ) * (m.p + 1)) =
      some (i * (m.p + 1)) := by
    unfold pyIdx?
    rw [if_pos ⟨by omega, by omega⟩, pyIdx_of_lt (by omega) (by omega),
      ← hcast, Int.toNat_natCast]
  simp only [sdContinuityStep]
  rw [if_pos hc, hsrc, htgt]
  simp only [sdContinuityWrap]
  rw [if_pos hc]

theorem sdContinuityStep_neg_ok (m : SpectralDifferenceMethod)
    (hc : ¬ 0 < m.c) (hn2 : 2 ≤ m.n_cell) (arr : ℕ → ℚ) (i : ℕ)
    (hi : i < m.n_cell) :
    sdContinuityStep m (.ok arr) i = .ok (sdContinuityWrap m arr i) := by
  have h2q : 2 * (m.p + 1) ≤ m.n_cell * (m.p + 1) :=
    Nat.mul_le_mul_right (m.p + 1) hn2
  have hub2 : (i + 1) * (m.p + 1) ≤ m.n_cell * (m.p + 1) :=
    Nat.mul_le_mul_right (m.p + 1) (by omega)
  have hA1 : 1 * (m.p + 1) ≤ (i + 1) * (m.p + 1) :=
    Nat.mul_le_mul_right (m.p + 1) (by omega)
  have hcast2 : (((i + 1) * (m.p + 1) : ℕ) : ℤ) = ((i : ℤ) + 1) * (m.p + 1) := by
    push_cast
    ring
  have hringS : ((i : ℤ) - 1) * (m.p + 1) =
      ((i : ℤ) + 1) * (m.p + 1) - 2 * ((m.p : ℤ) + 1) := by
    ring
  have hsrc : pyIdx? (m.n_cell * (m.p + 1)) (((i : ℤ) - 1) * (m.p + 1)) =
      some (pyIdx (m.n_cell * (m.p + 1)) (((i : ℤ) - 1) * (m.p + 1))) := by
    unfold pyIdx?
    rw [if_pos ⟨by omega, by omega⟩]
  have htgt : pyIdx? (m.n_cell * (m.p + 1)) (((i : ℤ) - 1) * (m.p + 1) - 1) =
      some (pyIdx (m.n_cell * (m.p + 1)) (((i : ℤ) - 1) * (m.p + 1) - 1)) := by
    unfold pyIdx?
    rw [if_pos ⟨by omega, by omega⟩]
  simp only [sdContinuityStep]
  rw [if_neg hc, hsrc, htgt]
  simp only [sdContinuityWrap]
  rw [if_neg hc]

theorem sdContinuityStep_err_one (m : SpectralDifferenceMethod)
    (hc : ¬ 0 < m.c) (hn1 : m.n_cell = 1) (arr : ℕ → ℚ) :
    sdContinuityStep m (.ok arr) 0 = .error arr := by
  have hxs : (((0 : ℕ) : ℤ) - 1) * (m.p + 1) = -((m.p : ℤ) + 1) := by
    push_cast
    ring
  have hxt : (((0 : ℕ) : ℤ) - 1) * (m.p + 1) - 1 = -((m.p : ℤ) + 2) := by
    push_cast
    ring
  have hcastN : ((m.n_cell * (m.p + 1) : ℕ) : ℤ) = (m.p : ℤ) + 1 := by
    rw [hn1]
    push_cast
    ring
  have hsrc : pyIdx? (m.n_cell * (m.p + 1)) ((((0 : ℕ) : ℤ) - 1) * (m.p + 1)) =
      some (pyIdx (m.n_cell * (m.p + 1))
        ((((0 : ℕ) : ℤ) - 1) * (m.p + 1))) := by
    unfold pyIdx?
    rw [if_pos ⟨by omega, by omega⟩]
  have hno : ¬(-((m.n_cell * (m.p + 1) : ℕ) : ℤ) ≤
      (((0 : ℕ) : ℤ) - 1) * (m.p + 1) - 1 ∧
      (((0 : ℕ) : ℤ) - 1) * (m.p + 1) - 1 <
        ((m.n_cell * (m.p + 1) : ℕ) : ℤ)) := by
    intro hcon
    omega
  have htgt : pyIdx? (m.n_cell * (m.p + 1))
      ((((0 : ℕ) : ℤ) - 1) * (m.p + 1) - 1) = none := by
    unfold pyIdx?
    rw [if_neg hno]
  simp only [sdContinuityStep]
  rw [if_neg hc, hsrc, htgt]

theorem foldl_sdContinuity_ok (m : SpectralDifferenceMethod) (l : List ℕ)
    (a : ℕ → ℚ)
    (h : ∀ i ∈ l, ∀ arr,
      sdContinuityStep m (.ok arr) i = .ok (sdContinuityWrap m arr i)) :
    l.foldl (sdContinuityStep m) (.ok a) =
      .ok (l.foldl (sdContinuityWrap m) a) := by
  induction l generalizing a with
  | nil => rfl
  | cons hd rest ih =>
      rw [List.foldl_cons, List.foldl_cons,
        h hd (List.mem_cons_self hd rest) a]
      exact ih _ fun i hi arr => h i (List.mem_cons_of_mem hd hi) arr

theorem sdStage4_ok_of (m : SpectralDifferenceMethod) (st : RhsState)
    (h : ∀ i ∈ List.range m.n_cell, ∀ arr,
      sdContinuityStep m (.ok arr) i = .ok (sdContinuityWrap m arr i)) :
    sdStage4 m st = .ok (sdStage4Wrap m st) := by
  unfold sdStage4 sdStage4Wrap
  rw [foldl_sdContinuity_ok m (List.range m.n_cell) st.flux_in_flux_point h]

theorem sdStage4_err_one (m : SpectralDifferenceMethod) (hc : ¬ 0 < m.c)
    (hn1 : m.n_cell = 1) (st : RhsState) : sdStage4 m st = .error st := by
  unfold sdStage4
  have hr1 : List.range 1 = [0] := rfl
  rw [hn1, hr1, List.foldl_cons, List.foldl_nil,
    sdContinuityStep_err_one m hc hn1 st.flux_in_flux_point]

theorem sdStage4_y_ok {m : SpectralDifferenceMethod} {st st' : RhsState}
    (h : sdStage4 m st = .ok st') : st'.y = st.y := by
  unfold sdStage4 at h
  cases hf : (List.range m.n_cell).foldl (sdContinuityStep m)
      (Except.ok st.flux_in_flux_point) with
  | ok flux =>
      rw [hf] at h
      injection h with h'
      rw [← h']
  | error flux =>
      rw [hf] at h
      exact Except.noConfusion h

theorem sdStage4_y_err {m : SpectralDifferenceMethod} {st st' : RhsState}
    (h : sdStage4 m st = .error st') : st'.y = st.y := by
  unfold sdStage4 at h
  cases hf : (List.range m.n_cell).foldl (sdContinuityStep m)
      (Except.ok st.flux_in_flux_point) with
  | ok flux =>
      rw [hf] at h
      exact Except.noConfusion h
  | error flux =>
      rw [hf] at h
      injection h with h'
      rw [← h']

/-- C7 (counterexample): a single-cell method with negative transport does
not perform the claimed wraparound assignment: at loop iteration `i = 0` the
write index `(0-1)*(p+1)-1 = -(p+2)` is below `-len` for the size-`(p+1)`
flux array, so numpy raises `IndexError` and the loop aborts with the array
unchanged. -/
theorem C7_counterexample :
    sdStage4 sdExampleNegOne rhsStExample = .error rhsStExample := rfl

/-- C7 (amended): in `SpectralDifferenceMethod.rhs` flux continuity at cell
interfaces is enforced upwind.  For positive transport coefficient `c` the
loop completes and every cell's left-interface flux value (the cell's first
flux point, index `i*(p+1)`) is replaced by the previous cell's right flux
point, with wraparound at `i = 0`.  For negative `c` and at least two cells
the loop completes with the mirror assignment: iteration `i` writes position
`(i-1)*(p+1)-1` — at `i = 0` a negative in-range index resolved by
wraparound — copying from `(i-1)*(p+1)`, so every cell's right-interface
flux is taken from the neighbouring cell's left flux point.  For negative
`c` with a single cell, iteration 0's write index `-(p+2)` is below `-len`
and the loop raises `IndexError` instead. -/
theorem C7_flux_continuity_upwind (m : SpectralDifferenceMethod)
    (hp : 1 ≤ m.p) (hn : 1 ≤ m.n_cell) (st : RhsState) :
    (0 < m.c →
      sdStage4 m st = .ok (sdStage4Wrap m st) ∧
      ∀ i < m.n_cell,
        (sdStage4Wrap m st).flux_in_flux_point (i * (m.p + 1)) =
          st.flux_in_flux_point
            (((i + m.n_cell - 1) % m.n_cell) * (m.p + 1) + m.p)) ∧
    (m.c < 0 → 2 ≤ m.n_cell →
      sdStage4 m st = .ok (sdStage4Wrap m st) ∧
      (∀ i < m.n_cell,
        (sdStage4Wrap m st).flux_in_flux_point
            (pyIdx (m.n_cell * (m.p + 1)) (((i : ℤ) - 1) * (m.p + 1) - 1)) =
          st.flux_in_flux_point
            (pyIdx (m.n_cell * (m.p + 1)) (((i : ℤ) - 1) * (m.p + 1)))) ∧
      (∀ j < m.n_cell,
        (sdStage4Wrap m st).flux_in_flux_point (j * (m.p + 1) + m.p) =
          st.flux_in_flux_point (((j + 1) % m.n_cell) * (m.p + 1)))) ∧
    (m.c < 0 → m.n_cell = 1 → sdStage4 m st = .error st) := by
  refine ⟨fun hc => ⟨?_, fun i hi => ?_⟩,
    fun hc hn2 => ⟨?_, fun i hi => ?_, fun j hj => ?_⟩, fun hc h1 => ?_⟩
  · exact sdStage4_ok_of m st (fun i hi arr =>
      sdContinuityStep_pos_ok m hc arr i (List.mem_range.mp hi))
  · have h := sdWrap_pos m hp hn hc st.flux_in_flux_point i hi
    rw [pyIdx_prev_right m.n_cell m.p hn hp i hi] at h
    exact h
  · exact sdStage4_ok_of m st (fun i hi arr =>
      sdContinuityStep_neg_ok m (not_lt.mpr hc.le) hn2 arr i
        (List.mem_range.mp hi))
  · exact sdWrap_neg m hp hn hc st.flux_in_flux_point i hi
  · exact sdWrap_neg_cells m hp hn hc st.flux_in_flux_point j hj
  · exact sdStage4_err_one m (not_lt.mpr hc.le) h1 st

theorem sdContinuityWrap_preserves_zero (m : SpectralDifferenceMethod)
    (l : List ℕ) (a : ℕ → ℚ) (ha : ∀ x, a x = 0) :
    ∀ x, (l.foldl (sdContinuityWrap m) a) x = 0 := by
  induction l generalizing a with
  | nil => exact ha
  | cons h rest ih =>
      rw [List.foldl_cons]
      refine ih _ ?_
      intro x
      simp only [sdContinuityWrap]
      split <;> simp only [npSet] <;> split <;> exact ha _

theorem sdStage56_zero (m : SpectralDifferenceMethod) (st : RhsState)
    (hflux : ∀ v, st.flux_in_flux_point v = 0)
    (hrf : ∀ v, st.rhs_in_flux_point v = 0)
    (hrs : ∀ v, st.rhs_in_sol_point v = 0) :
    ∀ v, (sdStage6 m (sdStage5 m st)).rhs_in_sol_point v = 0 := by
  have h5 : ∀ v, (sdStage5 m st).rhs_in_flux_point v = 0 := by
    intro v
    simp only [sdStage5]
    split
    · exact Finset.sum_eq_zero fun k _ => by rw [hflux]; ring
    · exact hrf v
  intro v
  simp only [sdStage6]
  split
  · exact Finset.sum_eq_zero fun k _ => by rw [h5]; ring
  · exact hrs v

/-- C8 (counterexample): with zero transport coefficient but a single cell,
`rhs` does not return the zero vector: the `c = 0` case fails the `c > 0`
test, takes the mirror branch of the continuity loop, and raises
`IndexError` at the out-of-range write index `-(p+2)`. -/
theorem C8_counterexample :
    sdExampleZeroOne.rhs (fun _ => 1) 0 = none := rfl

/-- C8 (amended): a spectral-difference operator with zero transport
coefficient and at least two cells returns the zero vector from `rhs` for
every input state and every time; with a single cell, the `c = 0` case takes
the non-positive-`c` branch of the continuity loop and the call raises
`IndexError` instead of returning anything. -/
theorem C8_zero_transport_rhs_zero (m : SpectralDifferenceMethod)
    (hc : m.c = 0) (y : ℕ → ℚ) (t : ℚ) :
    (2 ≤ m.n_cell → m.rhs y t = some (fun _ => 0)) ∧
    (m.n_cell = 1 → m.rhs y t = none) := by
  have hnotc : ¬ 0 < m.c := by
    rw [hc]
    exact lt_irrefl 0
  constructor
  · intro hn2
    unfold SpectralDifferenceMethod.rhs SpectralDifferenceMethod.rhsRun
    rw [sdStage4_ok_of m (sdStage3 m (sdStage2 m (sdStage1 m
        { y := y
          sol_in_sol_point := fun _ => 0
          sol_in_flux_point := fun _ => 0
          flux_in_flux_point := fun _ => 0
          rhs_in_flux_point := fun _ => 0
          rhs_in_sol_point := fun _ => 0 })))
      (fun i hi arr => sdContinuityStep_neg_ok m hnotc hn2 arr i
        (List.mem_range.mp hi))]
    refine congrArg some (funext fun v => ?_)
    refine sdStage56_zero m _ ?_ ?_ ?_ v
    · intro w
      show ((List.range m.n_cell).foldl (sdContinuityWrap m)
        (sdStage3 m (sdStage2 m (sdStage1 m
          { y := y
            sol_in_sol_point := fun _ => 0
            sol_in_flux_point := fun _ => 0
            flux_in_flux_point := fun _ => 0
            rhs_in_flux_point := fun _ => 0
            rhs_in_sol_point := fun _ => 0 }))).flux_in_flux_point) w = 0
      refine sdContinuityWrap_preserves_zero m (List.range m.n_cell) _ ?_ w
      intro v'
      simp [sdStage3, sdStage2, sdStage1, hc]
    · intro w
      rfl
    · intro w
      rfl
  · intro hn1
    unfold SpectralDifferenceMethod.rhs SpectralDifferenceMethod.rhsRun
    rw [sdStage4_err_one m hnotc hn1]

/-- C10: `SpectralDifferenceMethod.rhs` never reads its time argument, so its
value is the same at any two times, and the body never writes to the input
array `y`: the `y` component of the threaded state is returned unchanged on
every path, whether the call returns normally or raises in the continuity
loop. -/
theorem C10_rhs_time_independent_and_pure (m : SpectralDifferenceMethod)
    (y : ℕ → ℚ) (t1 t2 t : ℚ) :
    m.rhs y t1 = m.rhs y t2 ∧ (m.rhsState y t).y = y := by
  refine ⟨rfl, ?_⟩
  unfold SpectralDifferenceMethod.rhsState SpectralDifferenceMethod.rhsRun
  cases h4 : sdStage4 m (sdStage3 m (sdStage2 m (sdStage1 m
      { y := y
        sol_in_sol_point := fun _ => 0
        sol_in_flux_point := fun _ => 0
        flux_in_flux_point := fun _ => 0
        rhs_in_flux_point := fun _ => 0
        rhs_in_sol_point := fun _ => 0 }))) with
  | error st4 =>
      show st4.y = y
      rw [sdStage4_y_err h4]
      rfl
  | ok st4 =>
      show st4.y = y
      rw [sdStage4_y_ok h4]
      rfl

/-- Witness for C2: a concrete call with an always-failing solver still
returns a full-length trajectory. -/
theorem C2_witness :
    (_bdf_i (0 : ℚ) (fun w ts _ => ts.map fun _ => w)
        (fun _ g _ => ⟨g + 1, false, "diverged"⟩) 1 5 [0, 1] (fun u _ => u)
        (fun u _ _ _ => u) (0 : ℕ)).1.length = ([0, 1] : List ℚ).length :=
  (C2_nonconvergence_is_nonfatal 0 (fun w ts _ => ts.map fun _ => w)
    (fun _ g _ => ⟨g + 1, false, "diverged"⟩) 1 5 [0, 1] (fun u _ => u)
    (fun u _ _ _ => u) 0 (le_refl 1) 0 (by decide)).1

/-- Witness for C3 at a concrete bootstrap. -/
theorem C3_witness :
    (_bdf_i (0 : ℚ) (fun w ts _ => ts.map fun _ => w)
        (fun _ g _ => ⟨g, true, "ok"⟩) 1 5 [0, 1] (fun u _ => u)
        (fun u _ _ _ => u) (0 : ℕ)).1.take 1 = [5] :=
  C3_bootstrap_prefix 0 (fun w ts _ => ts.map fun _ => w)
    (fun _ g _ => ⟨g, true, "ok"⟩) 1 5 [0, 1] (fun u _ => u)
    (fun u _ _ _ => u) 0 (by decide) (by decide)

/-- Witness for C9 at a concrete one-point grid with order 2. -/
theorem C9_witness :
    (_bdf_i (0 : ℚ) (fun w ts _ => ts.map fun _ => w)
        (fun _ g _ => ⟨g, true, "ok"⟩) 2 5 [0] (fun u _ => u)
        (fun u _ _ _ => u) (0 : ℕ)).1 = [5] :=
  (C9_short_grid_bootstrap_only 0 (fun w ts _ => ts.map fun _ => w)
    (fun _ g _ => ⟨g, true, "ok"⟩) 2 5 [0] (fun u _ => u)
    (fun u _ _ _ => u) 0 (by decide) (by decide)).1

/-- Witness for the amended C4 at a concrete one-point grid. -/
theorem C4_amended_witness :
    bdf_1 (0 : ℚ) (fun w ts _ => ts.map fun _ => w)
        (fun _ g _ => ⟨g, true, "ok"⟩) 5 [0] (fun u _ => u) none = ([5], []) :=
  (C4_amended_short_grid_returns 0 (fun w ts _ => ts.map fun _ => w)
    (fun _ g _ => ⟨g, true, "ok"⟩) 5 [0] (fun u _ => u) none
    (by decide)).1 (by decide)

/-- Witness for C5 at a concrete 1x1 matrix Jacobian. -/
theorem C5_witness :
    bdf1_jacobian (fun _ _ => NpVal.mat [[2]]) (NpVal.scal 0) 0 1 =
      some (matSub (npEye 1 1)
        (matSMul ((bdfCoeffsSpec 1).2 * ((1 : ℚ) - 0)) [[2]])) :=
  (C5_amended_jacobian_of_residual (fun _ _ => NpVal.mat [[2]]) (NpVal.scal 0)
    0 1 1 [[2]] rfl rfl (by decide)).1

/-- Witness for C6 at a concrete two-dimensional state. -/
theorem C6_witness :
    (_bdf_i (List.replicate ([1, 2] : List ℚ).length 0)
        (fun w ts _ => ts.map fun _ => w) (fun _ g _ => ⟨g, true, "ok"⟩) 1
        [1, 2] [0, 1] (fun u _ => u) (fun u _ _ _ => u) (0 : ℕ)).1.length =
      ([0, 1] : List ℚ).length :=
  (C6_trajectory_shape (fun w ts _ => ts.map fun _ => w)
    (fun _ g _ => ⟨g, true, "ok"⟩) 1 [1, 2] [0, 1] (fun u _ => u)
    (fun u _ _ _ => u) 0 (fun w ts _ => ts.map fun _ => w)
    (fun _ g _ => ⟨g, true, "ok"⟩) 3 (fun u _ => u) (fun u _ _ _ => u) 0
    (by decide) (fun R g jj => rfl)).1

/-- Witness for C7 at a concrete two-cell order-1 method with positive
transport. -/
theorem C7_witness :
    sdStage4 sdExample rhsStExample = .ok (sdStage4Wrap sdExample rhsStExample) :=
  ((C7_flux_continuity_upwind sdExample (by decide) (by decide)
    rhsStExample).1 (by decide)).1

/-- Witness for C8 at a concrete two-cell zero-transport method. -/
theorem C8_witness :
    sdExampleZero.rhs (fun _ => 1) 0 = some (fun _ => 0) :=
  (C8_zero_transport_rhs_zero sdExampleZero rfl (fun _ => 1) 0).1 (by decide)

end PIE
